import Mathlib

/-!
A verification development for the `mat` package: a dense, immutable,
row-major matrix library (Go source `mat.go`).

The embedding is shallow: a Go `Matrix` value is a `Matrix α` record with
`Int` dimension fields (Go `int`) and a `List α` backing buffer (Go
`[]float64`; the element type is kept abstract, so every theorem proved
without algebraic laws holds for any element semantics, IEEE doubles
included).  Go `panic`s are modelled by `Except MatError`, with one
constructor per panic site of the source plus `runtimeAlloc` for the Go
runtime's `makeslice: len out of range` panic, which is not raised by the
package itself.  Go loops `for i := 0; i < n; i++` become folds over
`intRange n`; writes `m.data[k] = x` through a slice become `List.set`
(`setL`) on the buffer being threaded through the fold.
-/

namespace Mat

/-- Failure modes.  The first four are the spec's error taxonomy
(`DimensionMismatch`, `IndexOutOfRange`, `InvalidRange`, `EmptyInput`);
`runtimeAlloc` is the Go runtime panic raised by `make([]float64, n)` when
`n < 0`, which is outside the spec's taxonomy. -/
inductive MatError where
  | dimensionMismatch
  | indexOutOfRange
  | invalidRange
  | emptyInput
  | runtimeAlloc
deriving DecidableEq

/-- Go's `Matrix struct { rows, cols int; data []float64 }`.  Dimensions are
`Int` because Go `int` is signed and the constructor does not validate. -/
structure Matrix (α : Type) where
  rows : Int
  cols : Int
  data : List α
deriving DecidableEq

/-- The indices visited by the Go loop `for i := 0; i < n; i++`. -/
def intRange (n : Int) : List Int :=
  (List.range n.toNat).map (Nat.cast : Nat → Int)

/-- Go slice expression `l[a:b]` (in-bounds case; out-of-bounds slicing
panics in Go and is never reached on well-formed matrices). -/
def goSlice {α : Type} (l : List α) (a b : Int) : List α :=
  (l.drop a.toNat).take (b.toNat - a.toNat)

/-- Go `dst := make([]T, n); copy(dst, src)`: the destination keeps length
`n`, receiving `min n src.length` elements of `src` and zeros beyond. -/
def goCopy {α : Type} [Zero α] (n : Nat) (src : List α) : List α :=
  src.take n ++ List.replicate (n - src.length) 0

/-- A single Go slice store `l[q] = x` at a (nonnegative in all reachable
uses) linear index. -/
def setL {α : Type} (l : List α) (q : Int) (x : α) : List α :=
  l.set q.toNat x

/-- The Go double loop `for i := 0; i < R; i++ { for j := 0; j < C; j++ {
l[pos i j] = g i j } }` threading a buffer through the writes. -/
def writes2 {α : Type} (R C : Int) (pos : Int → Int → Int) (g : Int → Int → α)
    (l0 : List α) : List α :=
  (intRange R).foldl
    (fun l i => (intRange C).foldl (fun l j => setL l (pos i j) (g i j)) l) l0

/-- The unexported accessor `at`: `m.data[m.cols*i+j]`, used by the source
only at bounds-checked positions. -/
def Matrix.at' {α : Type} [Zero α] (m : Matrix α) (i j : Int) : α :=
  m.data.getD (m.cols * i + j).toNat 0

/-- Representation invariant of the data model: nonnegative dimensions and
`data.length == rows * cols` (row-major layout is how `at'` reads). -/
def Matrix.WF {α : Type} (m : Matrix α) : Prop :=
  0 ≤ m.rows ∧ 0 ≤ m.cols ∧ (m.data.length : Int) = m.rows * m.cols

/-- `New(rows, cols)`: `make([]float64, rows*cols)` zero-filled.  The Go
runtime panics when `rows*cols < 0`; no validation is done by `New`. -/
def New {α : Type} [Zero α] (rows cols : Int) : Except MatError (Matrix α) :=
  if rows * cols < 0 then .error .runtimeAlloc
  else .ok ⟨rows, cols, List.replicate (rows * cols).toNat 0⟩

/-- `FromSlice(rows, cols, data)`: panics on `len(data) != rows*cols`, else
copies the buffer. -/
def FromSlice {α : Type} (rows cols : Int) (data : List α) :
    Except MatError (Matrix α) :=
  if (data.length : Int) ≠ rows * cols then .error .dimensionMismatch
  else .ok ⟨rows, cols, data⟩

/-- `FromFunc(rows, cols, f)`: fresh zero buffer filled by the row-major
double loop `m.set(i, j, f(i, j))` (linear index `cols*i+j`). -/
def FromFunc {α : Type} [Zero α] (rows cols : Int) (f : Int → Int → α) :
    Except MatError (Matrix α) :=
  if rows * cols < 0 then .error .runtimeAlloc
  else .ok ⟨rows, cols,
    writes2 rows cols (fun i j => cols * i + j) f
      (List.replicate (rows * cols).toNat 0)⟩

/-- `ToSlice` returns the backing buffer (no copy). -/
def Matrix.ToSlice {α : Type} (m : Matrix α) : List α := m.data

/-- `checkPos`: true iff the source's bounds check would panic. -/
def Matrix.checkPos {α : Type} (m : Matrix α) (i j : Int) : Bool :=
  decide (i < 0) || decide (i ≥ m.rows) || decide (j < 0) || decide (j ≥ m.cols)

/-- `At(i, j)`: bounds-checked read. -/
def Matrix.At {α : Type} [Zero α] (m : Matrix α) (i j : Int) :
    Except MatError α :=
  if m.checkPos i j then .error .indexOutOfRange else .ok (m.at' i j)

/-- `Clone()`: `c := New(m.rows, m.cols); copy(c.data, m.data)`. -/
def Matrix.Clone {α : Type} [Zero α] (m : Matrix α) : Matrix α :=
  ⟨m.rows, m.cols, goCopy (m.rows * m.cols).toNat m.data⟩

/-- `Apply(f)`: the source's double loop writes `f(i, j)` into `m.data`
itself, through the shared slice header — there is no clone.  The value of
this definition is the caller-visible state of `m`'s buffer after `Apply`
returns. -/
def Matrix.Apply {α : Type} (m : Matrix α) (f : Int → Int → α) : Matrix α :=
  ⟨m.rows, m.cols, writes2 m.rows m.cols (fun i j => m.cols * i + j) f m.data⟩

/-- `Set(i, j, x)`: bounds check, then clone, then write into the clone. -/
def Matrix.Set {α : Type} [Zero α] (m : Matrix α) (i j : Int) (x : α) :
    Except MatError (Matrix α) :=
  if m.checkPos i j then .error .indexOutOfRange
  else .ok ⟨m.rows, m.cols, setL (m.Clone).data (m.cols * i + j) x⟩

/-- `Map(f, m)`: clone then rewrite every buffer cell with `f`. -/
def Map {α : Type} [Zero α] (f : α → α) (m : Matrix α) : Matrix α :=
  ⟨m.rows, m.cols, (m.Clone).data.map f⟩

/-- `Scale(x) = Map(v ↦ x*v)`. -/
def Matrix.Scale {α : Type} [Zero α] [Mul α] (m : Matrix α) (x : α) : Matrix α :=
  Map (fun v => x * v) m

/-- `AddScalar(x) = Map(v ↦ x+v)`. -/
def Matrix.AddScalar {α : Type} [Zero α] [Add α] (m : Matrix α) (x : α) :
    Matrix α :=
  Map (fun v => x + v) m

/-- Row segment `m.data[i*m.cols : (i+1)*m.cols]` used by the
concatenation and filtering loops. -/
def Matrix.rowSeg {α : Type} (m : Matrix α) (i : Int) : List α :=
  goSlice m.data (i * m.cols) ((i + 1) * m.cols)

/-- `ConcatenateCols(ms...)`: empty-input panic, per-matrix row-count check
against `ms[0]`, then `for i { for m in ms { append(data, row i of m) } }`. -/
def ConcatenateCols {α : Type} (ms : List (Matrix α)) :
    Except MatError (Matrix α) :=
  match ms with
  | [] => .error .emptyInput
  | m0 :: _ =>
    if ms.all (fun m => decide (m.rows = m0.rows)) then
      .ok ⟨m0.rows, (ms.map Matrix.cols).sum,
        (intRange m0.rows).flatMap (fun i => ms.flatMap (fun m => m.rowSeg i))⟩
    else .error .dimensionMismatch

/-- `ConcatenateRows(ms...)`: empty-input panic, per-matrix col-count check
against `ms[0]`, then `for m in ms { append(data, m.data...) }`. -/
def ConcatenateRows {α : Type} (ms : List (Matrix α)) :
    Except MatError (Matrix α) :=
  match ms with
  | [] => .error .emptyInput
  | m0 :: _ =>
    if ms.all (fun m => decide (m.cols = m0.cols)) then
      .ok ⟨(ms.map Matrix.rows).sum, m0.cols, ms.flatMap Matrix.data⟩
    else .error .dimensionMismatch

/-- `SliceCols(from, to)` (`lo`, `hi` here; `from` is a Lean keyword):
range check, then per row append `m.data[i*cols+lo : i*cols+hi]`. -/
def Matrix.SliceCols {α : Type} (m : Matrix α) (lo hi : Int) :
    Except MatError (Matrix α) :=
  if lo < 0 ∨ hi > m.cols ∨ hi < lo then .error .invalidRange
  else .ok ⟨m.rows, hi - lo,
    (intRange m.rows).flatMap
      (fun i => goSlice m.data (i * m.cols + lo) (i * m.cols + hi))⟩

/-- `SliceRows(from, to)`: range check, then
`data := make([]float64, cols*(hi-lo)); copy(data, m.data[lo*cols:hi*cols])`. -/
def Matrix.SliceRows {α : Type} [Zero α] (m : Matrix α) (lo hi : Int) :
    Except MatError (Matrix α) :=
  if lo < 0 ∨ hi > m.rows ∨ hi < lo then .error .invalidRange
  else .ok ⟨hi - lo, m.cols,
    goCopy (m.cols * (hi - lo)).toNat (goSlice m.data (lo * m.cols) (hi * m.cols))⟩

/-- `Reduce(zero, f)`: `cum := zero; for _, x := range m.data { cum = f(x, cum) }`. -/
def Matrix.Reduce {α β : Type} (m : Matrix α) (zero : β) (f : α → β → β) : β :=
  m.data.foldl (fun cum x => f x cum) zero

/-- `Sum()` via `Reduce`. -/
def Matrix.Sum {α : Type} [Zero α] [Add α] (m : Matrix α) : α :=
  m.Reduce 0 (fun x cum => x + cum)

/-- `FilterRows(f)`: keeps (in order) the row segments whose index passes
`f`, counting them as the new row count. -/
def Matrix.FilterRows {α : Type} (m : Matrix α) (f : Int → Bool) : Matrix α :=
  ⟨((intRange m.rows).filter f).length, m.cols,
    ((intRange m.rows).filter f).flatMap (fun i => m.rowSeg i)⟩

/-- `T()`: buffer `make([]float64, len(m.data))`, then the double loop
`t.set(j, i, m.at(i, j))`, whose linear index is `t.cols*j+i = m.rows*j+i`. -/
def Matrix.T {α : Type} [Zero α] (m : Matrix α) : Matrix α :=
  ⟨m.cols, m.rows,
    writes2 m.rows m.cols (fun i j => m.rows * j + i) (fun i j => m.at' i j)
      (List.replicate m.data.length 0)⟩

/-- `Equals(a, b)`: false on any dimension mismatch, else the element loop
`for i, v := range a.data { if v != b.data[i] { return false } }`.  The Go
`!=` is the IEEE-754 float64 comparison, an operation of the element type
that satisfies no equational laws a priori (IEEE `==` is not reflexive at
NaN): it is modelled by the element type's lawless `BEq` operator, and
`FP64` below instantiates it with the IEEE behavior. -/
def Equals {α : Type} [Zero α] [BEq α] (a b : Matrix α) : Bool :=
  if a.cols ≠ b.cols ∨ a.rows ≠ b.rows then false
  else (List.range a.data.length).all
    (fun i => a.data.getD i 0 == b.data.getD i 0)

/-- The source's element type `float64`, modelled as far as the claims
exercise it: a value is either NaN or an exact numeric value (the exact
carrier stands for the finite doubles; both IEEE zeros map to `num 0`,
which the comparison equates, as IEEE `==` does). -/
inductive FP64 where
  | nan : FP64
  | num : Int → FP64
deriving DecidableEq

/-- IEEE-754 `==` on float64: false whenever either operand is NaN — in
particular `nan == nan` is false — and exact value equality otherwise. -/
def FP64.feq : FP64 → FP64 → Bool
  | .num a, .num b => decide (a = b)
  | _, _ => false

instance : BEq FP64 := ⟨FP64.feq⟩

instance : Zero FP64 := ⟨.num 0⟩

/-- The inner accumulation `p := 0.0; for k { p += a.at(i,k) * b.at(k,j) }`
shared verbatim by `Product` and each `ParallelProduct` row task. -/
def prodCell {α : Type} [Zero α] [Add α] [Mul α] (a b : Matrix α)
    (i j : Int) : α :=
  (intRange a.cols).foldl (fun p k => p + a.at' i k * b.at' k j) 0

/-- `Product(a, b)`: dimension check, then the sequential triple loop into
`c := New(a.rows, b.cols)` (`c.set(i, j, p)` at linear index `b.cols*i+j`). -/
def Product {α : Type} [Zero α] [Add α] [Mul α] (a b : Matrix α) :
    Except MatError (Matrix α) :=
  if a.cols ≠ b.rows then .error .dimensionMismatch
  else .ok ⟨a.rows, b.cols,
    writes2 a.rows b.cols (fun i j => b.cols * i + j) (prodCell a b)
      (List.replicate (a.rows * b.cols).toNat 0)⟩

/-- The body of one `ParallelProduct` goroutine: for a fixed output row `i`
it runs `for j { p := 0; for k { p += ... }; c.set(i, j, p) }` over the
shared output buffer.  Distinct tasks write disjoint linear positions
(`b.cols*i + j` determines `i`), so after the `WaitGroup` join the buffer
state is the same whichever order the tasks ran in; the fold in
`ParallelProduct` below threads them in row order as a representative. -/
def rowTask {α : Type} [Zero α] [Add α] [Mul α] (a b : Matrix α) (i : Int)
    (l : List α) : List α :=
  (intRange b.cols).foldl (fun l j => setL l (b.cols * i + j) (prodCell a b i j)) l

/-- `ParallelProduct(a, b)`: same dimension check, one row task per output
row into `c := New(a.rows, b.cols)`, `wg.Wait()` before returning. -/
def ParallelProduct {α : Type} [Zero α] [Add α] [Mul α] (a b : Matrix α) :
    Except MatError (Matrix α) :=
  if a.cols ≠ b.rows then .error .dimensionMismatch
  else .ok ⟨a.rows, b.cols,
    (intRange a.rows).foldl (fun l i => rowTask a b i l)
      (List.replicate (a.rows * b.cols).toNat 0)⟩

/-- Modelled from the spec (§6 external-interface boundary): the external
dense GEMM routine `gemm(transA, transB, alpha, A, B, beta, C)` with
`transA = transB = NoTrans`.  It is told `{rows, cols, rowStride, buffer}`
for each operand (stride = cols here, set by `generalFromMat`), takes the
shared dimension `k` from `A`'s column count, reads `B`'s buffer at row
stride `B.cols`, and overwrites `C`'s buffer with
`alpha*A*B + beta*C` at row stride `C.cols`.  The routine itself is not part
of the repository's source. -/
def gemm {α : Type} [Zero α] [Add α] [Mul α] (alpha : α) (A B : Matrix α)
    (beta : α) (C : Matrix α) : Matrix α :=
  ⟨C.rows, C.cols,
    writes2 A.rows C.cols (fun i j => C.cols * i + j)
      (fun i j =>
        alpha * (intRange A.cols).foldl
          (fun p k => p + A.at' i k * B.at' k j) 0 + beta * C.at' i j)
      C.data⟩

/-- `BlasProduct(a, b)`: `c := New(a.Rows(), b.Cols())` then
`blas64.Gemm(NoTrans, NoTrans, 1, A, B, 0, C)`.  Note: no dimension check of
its own. -/
def BlasProduct {α : Type} [Zero α] [One α] [Add α] [Mul α] (a b : Matrix α) :
    Except MatError (Matrix α) :=
  if a.rows * b.cols < 0 then .error .runtimeAlloc
  else .ok (gemm 1 a b 0 ⟨a.rows, b.cols, List.replicate (a.rows * b.cols).toNat 0⟩)

/-- `dotApply(a, b, f)`: exact-dimension check, `c := New(a.rows, a.cols)`,
then `for i < a.rows { for j < b.cols { c.set(i, j, f(a.at(i,j), b.at(i,j))) } }`
(linear index `a.cols*i+j`). -/
def dotApply {α : Type} [Zero α] (a b : Matrix α) (f : α → α → α) :
    Except MatError (Matrix α) :=
  if a.cols ≠ b.cols ∨ a.rows ≠ b.rows then .error .dimensionMismatch
  else .ok ⟨a.rows, a.cols,
    writes2 a.rows b.cols (fun i j => a.cols * i + j)
      (fun i j => f (a.at' i j) (b.at' i j))
      (List.replicate (a.rows * a.cols).toNat 0)⟩

/-- `Dot(a, b)`: element-wise product. -/
def Dot {α : Type} [Zero α] [Mul α] (a b : Matrix α) : Except MatError (Matrix α) :=
  dotApply a b (fun x y => x * y)

/-- `Plus(a, b)`: element-wise sum. -/
def Plus {α : Type} [Zero α] [Add α] (a b : Matrix α) : Except MatError (Matrix α) :=
  dotApply a b (fun x y => x + y)

/-- `Minus(a, b)`: element-wise difference. -/
def Minus {α : Type} [Zero α] [Sub α] (a b : Matrix α) : Except MatError (Matrix α) :=
  dotApply a b (fun x y => x - y)

/-! ### Toolbox: arithmetic and `intRange` -/

lemma toNat_mul {a b : Int} (ha : 0 ≤ a) (hb : 0 ≤ b) :
    (a * b).toNat = a.toNat * b.toNat := by
  have h : ((a * b).toNat : Int) = ((a.toNat * b.toNat : Nat) : Int) := by
    rw [Int.toNat_of_nonneg (mul_nonneg ha hb)]
    push_cast
    rw [Int.toNat_of_nonneg ha, Int.toNat_of_nonneg hb]
  exact_mod_cast h

lemma intRange_length (n : Int) : (intRange n).length = n.toNat := by
  unfold intRange
  rw [List.length_map, List.length_range]

lemma mem_intRange {x n : Int} : x ∈ intRange n ↔ 0 ≤ x ∧ x < n := by
  simp only [intRange, List.mem_map, List.mem_range]
  constructor
  · rintro ⟨k, hk, rfl⟩
    omega
  · rintro ⟨h0, h1⟩
    exact ⟨x.toNat, by omega, by omega⟩

/-! ### Toolbox: folds of buffer writes -/

lemma foldl_length_inv {α β : Type} (steps : List β) (f : List α → β → List α)
    (hf : ∀ l s, (f l s).length = l.length) :
    ∀ l : List α, (steps.foldl f l).length = l.length := by
  induction steps with
  | nil => intro l; rfl
  | cons s rest ih => intro l; rw [List.foldl_cons, ih, hf]

/-- Any `writes2` loop only overwrites buffer cells: the length is kept. -/
lemma writes2_length {α : Type} (R C : Int) (pos : Int → Int → Int)
    (g : Int → Int → α) (l0 : List α) :
    (writes2 R C pos g l0).length = l0.length := by
  unfold writes2
  exact foldl_length_inv _ _
    (fun l i => foldl_length_inv _ _ (fun l' j => by simp [setL]) l) l0

/-- Writing `g j` at consecutive positions `b+j`, `j < C`, into a buffer that
is long enough splices the generated row into the middle of the buffer. -/
lemma foldl_set_row {α : Type} (C : Nat) (g : Nat → α) :
    ∀ (l0 : List α) (b : Nat), b + C ≤ l0.length →
      (List.range C).foldl (fun l j => l.set (b + j) (g j)) l0 =
        l0.take b ++ (List.range C).map g ++ l0.drop (b + C) := by
  induction C with
  | zero =>
    intro l0 b h
    simp only [List.range_zero, List.foldl_nil, List.map_nil, List.append_nil,
      Nat.add_zero]
    exact (List.take_append_drop b l0).symm
  | succ C ih =>
    intro l0 b h
    rw [List.range_succ, List.foldl_append, ih l0 b (by omega)]
    simp only [List.foldl_cons, List.foldl_nil, List.map_append, List.map_cons,
      List.map_nil]
    have hlen1 : (l0.take b ++ (List.range C).map g).length = b + C := by
      simp only [List.length_append, List.length_take, List.length_map,
        List.length_range]
      omega
    rw [List.set_append, if_neg (by rw [hlen1]; omega), hlen1, Nat.sub_self]
    have hbC : b + C < l0.length := by omega
    rw [List.drop_eq_getElem_cons hbC, List.set_cons_zero]
    simp only [List.append_assoc, List.cons_append, List.nil_append]
    rw [Nat.add_assoc]

lemma length_flatMap_uniform {α β : Type} (l : List β) (f : β → List α) (c : Nat)
    (h : ∀ x ∈ l, (f x).length = c) : (l.flatMap f).length = l.length * c := by
  induction l with
  | nil => simp
  | cons x xs ih =>
    rw [List.flatMap_cons, List.length_append, h x (List.mem_cons_self x xs),
      ih (fun y hy => h y (List.mem_cons_of_mem x hy)), List.length_cons,
      Nat.succ_mul]
    omega

/-- The row-major double loop over `Nat` ranges rewrites the first `R*C`
cells with the generated row-major contents and leaves the tail alone. -/
lemma foldl_set_grid {α : Type} (C : Nat) (g : Nat → Nat → α) :
    ∀ (R : Nat) (l0 : List α), R * C ≤ l0.length →
      (List.range R).foldl
        (fun l i => (List.range C).foldl (fun l j => l.set (C * i + j) (g i j)) l) l0 =
      (List.range R).flatMap (fun i => (List.range C).map (g i)) ++
        l0.drop (R * C) := by
  intro R
  induction R with
  | zero => intro l0 h; simp
  | succ R ih =>
    intro l0 h
    have hRC : R * C ≤ l0.length :=
      le_trans (Nat.mul_le_mul_right C (Nat.le_succ R)) h
    rw [List.range_succ, List.foldl_append, ih l0 hRC, List.foldl_cons,
      List.foldl_nil]
    have hG : ((List.range R).flatMap (fun i => (List.range C).map (g i))).length
        = R * C := by
      rw [length_flatMap_uniform _ _ C (by intro x hx; simp), List.length_range]
    have hsucc : (R + 1) * C = R * C + C := Nat.succ_mul R C
    rw [foldl_set_row C (g R) _ (C * R)
      (by rw [List.length_append, List.length_drop, hG, Nat.mul_comm C R]; omega)]
    have htake : (((List.range R).flatMap (fun i => (List.range C).map (g i))) ++
        l0.drop (R * C)).take (C * R) =
        (List.range R).flatMap (fun i => (List.range C).map (g i)) := by
      rw [Nat.mul_comm C R, ← hG, List.take_left]
    have hdropG : ∀ D : List α,
        (((List.range R).flatMap (fun i => (List.range C).map (g i))) ++ D).drop
          (R * C) = D := by
      intro D
      rw [← hG]
      exact List.drop_left _ _
    have hdrop : (((List.range R).flatMap (fun i => (List.range C).map (g i))) ++
        l0.drop (R * C)).drop (C * R + C) = l0.drop ((R + 1) * C) := by
      rw [Nat.mul_comm C R, hsucc, ← List.drop_drop, hdropG, List.drop_drop]
    rw [htake, hdrop, List.flatMap_append, List.flatMap_cons,
      List.flatMap_nil, List.append_nil, List.append_assoc]

/-- `writes2` with the row-major position map `cols*i + j`, over a buffer
holding at least `R*C` cells: the prefix becomes the generated row-major
contents, the tail is untouched. -/
lemma writes2_rowMajor {α : Type} (R C : Int) (hC : 0 ≤ C) (g : Int → Int → α)
    (l0 : List α) (h : R.toNat * C.toNat ≤ l0.length) :
    writes2 R C (fun i j => C * i + j) g l0 =
      (List.range R.toNat).flatMap
        (fun (i : Nat) =>
          (List.range C.toNat).map (fun (j : Nat) => g (i : Int) (j : Int))) ++
        l0.drop (R.toNat * C.toNat) := by
  have hC' : ((C.toNat : Nat) : Int) = C := Int.toNat_of_nonneg hC
  have hidx : ∀ i j : Nat, (C * (i : Int) + (j : Int)) =
      ((C.toNat * i + j : Nat) : Int) := by
    intro i j
    rw [Nat.cast_add, Nat.cast_mul, hC']
  unfold writes2 intRange
  rw [List.foldl_map]
  refine Eq.trans (List.foldl_ext _ _ l0 ?_)
    (foldl_set_grid C.toNat (fun i j => g (i : Int) (j : Int)) R.toNat l0 h)
  intro l k hk
  rw [List.foldl_map]
  apply List.foldl_ext
  intro l' j hj
  show setL l' (C * (k : Int) + (j : Int)) (g k j) = _
  rw [setL, hidx k j, Int.toNat_natCast]

/-- Element `i*c + j` of a flatMap of uniform-length chunks is element `j`
of chunk `i`. -/
lemma getElem?_flatMap_uniform {α β : Type} (c : Nat) (f : β → List α) :
    ∀ (l : List β) (i j : Nat) (hix : i < l.length),
      (∀ x ∈ l, (f x).length = c) → j < c →
      (l.flatMap f)[i * c + j]? = (f (l.get ⟨i, hix⟩))[j]? := by
  intro l
  induction l with
  | nil => intro i j hix _ _; simp at hix
  | cons x xs ih =>
    intro i j hix hlen hj
    have hx : (f x).length = c := hlen x (List.mem_cons_self x xs)
    cases i with
    | zero =>
      rw [List.flatMap_cons, Nat.zero_mul, Nat.zero_add,
        List.getElem?_append, if_pos (by omega)]
      rfl
    | succ i =>
      rw [List.flatMap_cons,
        List.getElem?_append_right (by rw [hx, Nat.succ_mul]; omega)]
      have hsub : (i + 1) * c + j - (f x).length = i * c + j := by
        rw [hx, Nat.succ_mul]; omega
      rw [hsub]
      exact ih i j (by simpa using hix)
        (fun y hy => hlen y (List.mem_cons_of_mem x hy)) hj

/-- Dropping `i` whole chunks of a uniform flatMap. -/
lemma drop_flatMap_uniform {α β : Type} (c : Nat) (f : β → List α) :
    ∀ (l : List β) (i : Nat) (hix : i < l.length),
      (∀ x ∈ l, (f x).length = c) →
      (l.flatMap f).drop (i * c) =
        f (l.get ⟨i, hix⟩) ++ (l.drop (i + 1)).flatMap f := by
  intro l
  induction l with
  | nil => intro i hix _; simp at hix
  | cons x xs ih =>
    intro i hix hlen
    have hx : (f x).length = c := hlen x (List.mem_cons_self x xs)
    cases i with
    | zero =>
      simp [List.flatMap_cons]
    | succ i =>
      rw [List.flatMap_cons, Nat.succ_mul, Nat.add_comm, ← List.drop_drop,
        ← hx, List.drop_left, hx]
      exact ih i (by simpa using hix)
        (fun y hy => hlen y (List.mem_cons_of_mem x hy))

/-- Splitting a list of length `n*c` into its `n` chunks of length `c` and
concatenating them gives the list back. -/
lemma flatMap_range_chunks {α : Type} (c : Nat) :
    ∀ (n : Nat) (L : List α), L.length = n * c →
      (List.range n).flatMap (fun i => (L.drop (i * c)).take c) = L := by
  intro n
  induction n with
  | zero =>
    intro L h
    rw [Nat.zero_mul] at h
    rw [List.range_zero, List.flatMap_nil]
    exact (List.eq_nil_of_length_eq_zero h).symm
  | succ n ih =>
    intro L h
    rw [Nat.succ_mul] at h
    rw [List.range_succ_eq_map, List.flatMap_cons, Nat.zero_mul, List.drop_zero,
      List.flatMap_map]
    have hstep : ∀ i : Nat, (L.drop (Nat.succ i * c)).take c =
        ((L.drop c).drop (i * c)).take c := by
      intro i
      rw [List.drop_drop, Nat.succ_mul, Nat.add_comm]
    simp only [hstep]
    rw [ih (L.drop c) (by rw [List.length_drop]; omega)]
    exact List.take_append_drop c L

/-! ### Toolbox: matrix-level helpers -/

lemma goCopy_exact {α : Type} [Zero α] {n : Nat} {src : List α}
    (h : src.length = n) : goCopy n src = src := by
  subst h
  unfold goCopy
  rw [List.take_length, Nat.sub_self, List.replicate_zero, List.append_nil]

lemma Matrix.length_data_WF {α : Type} {m : Matrix α} (h : m.WF) :
    m.data.length = m.rows.toNat * m.cols.toNat := by
  obtain ⟨hr, hc, hlen⟩ := h
  have := toNat_mul hr hc
  omega

/-- `Clone` of a well-formed matrix copies the buffer verbatim. -/
lemma Matrix.Clone_eq {α : Type} [Zero α] {m : Matrix α} (h : m.WF) :
    m.Clone = m := by
  obtain ⟨hr, hc, hlen⟩ := h
  unfold Matrix.Clone
  rw [goCopy_exact (by omega)]

/-- The row segment taken by the source loops, in `Nat` index form. -/
lemma Matrix.rowSeg_eq {α : Type} (m : Matrix α) (hc : 0 ≤ m.cols) (i : Nat) :
    m.rowSeg i = (m.data.drop (i * m.cols.toNat)).take m.cols.toNat := by
  have hc' : ((m.cols.toNat : Nat) : Int) = m.cols := Int.toNat_of_nonneg hc
  unfold Matrix.rowSeg goSlice
  have h1 : ((i : Int) * m.cols).toNat = i * m.cols.toNat := by
    rw [show (i : Int) * m.cols = ((i * m.cols.toNat : Nat) : Int) by
      push_cast [hc']; ring, Int.toNat_natCast]
  have h2 : (((i : Int) + 1) * m.cols).toNat = (i + 1) * m.cols.toNat := by
    rw [show ((i : Int) + 1) * m.cols = (((i + 1) * m.cols.toNat : Nat) : Int) by
      push_cast [hc']; ring, Int.toNat_natCast]
  rw [h1, h2]
  congr 1
  rw [Nat.succ_mul]
  omega

lemma Matrix.rowSeg_length {α : Type} {m : Matrix α} (h : m.WF) (i : Nat)
    (hi : i < m.rows.toNat) : (m.rowSeg i).length = m.cols.toNat := by
  rw [m.rowSeg_eq h.2.1 i, List.length_take, List.length_drop,
    Matrix.length_data_WF h]
  have hmul : (i + 1) * m.cols.toNat ≤ m.rows.toNat * m.cols.toNat :=
    Nat.mul_le_mul_right _ (by omega)
  rw [Nat.succ_mul] at hmul
  omega

/-- A well-formed matrix's buffer is the concatenation of its row segments
(the source's row-by-row reading order). -/
lemma Matrix.data_eq_rows {α : Type} (m : Matrix α) (h : m.WF) :
    m.data = (intRange m.rows).flatMap (fun i => m.rowSeg i) := by
  unfold intRange
  rw [List.flatMap_map]
  have hseg : ∀ i : Nat, m.rowSeg i =
      (m.data.drop (i * m.cols.toNat)).take m.cols.toNat :=
    m.rowSeg_eq h.2.1
  simp only [hseg]
  exact (flatMap_range_chunks m.cols.toNat m.rows.toNat m.data
    (Matrix.length_data_WF h)).symm

/-- Reading cell `(i, j)` back from a row-major `writes2` fill. -/
lemma writes2_rowMajor_getD {α : Type} [Zero α] (R C : Int) (hC : 0 ≤ C)
    (g : Int → Int → α) (l0 : List α) (h : R.toNat * C.toNat ≤ l0.length)
    {i j : Int} (hi0 : 0 ≤ i) (hiR : i < R) (hj0 : 0 ≤ j) (hjC : j < C) :
    (writes2 R C (fun i j => C * i + j) g l0).getD (C * i + j).toNat 0 =
      g i j := by
  rw [writes2_rowMajor R C hC g l0 h]
  have hC' : ((C.toNat : Nat) : Int) = C := Int.toNat_of_nonneg hC
  have hi' : ((i.toNat : Nat) : Int) = i := Int.toNat_of_nonneg hi0
  have hj' : ((j.toNat : Nat) : Int) = j := Int.toNat_of_nonneg hj0
  have hidx : (C * i + j).toNat = i.toNat * C.toNat + j.toNat := by
    rw [show C * i + j = ((i.toNat * C.toNat + j.toNat : Nat) : Int) by
      push_cast [hC', hi', hj']; ring, Int.toNat_natCast]
  have hix : i.toNat < (List.range R.toNat).length := by
    rw [List.length_range]; omega
  have hlenchunk : ∀ x ∈ List.range R.toNat,
      ((List.range C.toNat).map (fun (j : Nat) => g (x : Int) (j : Int))).length
        = C.toNat := by
    intro x hx
    rw [List.length_map, List.length_range]
  rw [List.getD_eq_getElem?_getD, hidx,
    List.getElem?_append,
    if_pos (by
      rw [length_flatMap_uniform _ _ C.toNat ?_, List.length_range]
      · have hmul : (i.toNat + 1) * C.toNat ≤ R.toNat * C.toNat :=
          Nat.mul_le_mul_right _ (by omega)
        rw [Nat.succ_mul] at hmul
        omega
      · intro x hx
        rw [List.length_map, List.length_range]),
    getElem?_flatMap_uniform C.toNat _ (List.range R.toNat) i.toNat j.toNat hix
      hlenchunk (by omega),
    List.get_eq_getElem, List.getElem_range, List.getElem?_map,
    List.getElem?_range (by omega)]
  rw [Option.map_some', Option.getD_some, hi', hj']

lemma goCopy_length {α : Type} [Zero α] (n : Nat) (src : List α) :
    (goCopy n src).length = n := by
  unfold goCopy
  rw [List.length_append, List.length_take, List.length_replicate]
  omega

lemma Matrix.SliceCols_ok {α : Type} (m : Matrix α) (lo hi : Int)
    (h : ¬ (lo < 0 ∨ hi > m.cols ∨ hi < lo)) :
    m.SliceCols lo hi = .ok ⟨m.rows, hi - lo,
      (intRange m.rows).flatMap
        (fun i => goSlice m.data (i * m.cols + lo) (i * m.cols + hi))⟩ := by
  unfold Matrix.SliceCols
  rw [if_neg h]

lemma Matrix.SliceRows_ok {α : Type} [Zero α] (m : Matrix α) (lo hi : Int)
    (h : ¬ (lo < 0 ∨ hi > m.rows ∨ hi < lo)) :
    m.SliceRows lo hi = .ok ⟨hi - lo, m.cols,
      goCopy (m.cols * (hi - lo)).toNat
        (goSlice m.data (lo * m.cols) (hi * m.cols))⟩ := by
  unfold Matrix.SliceRows
  rw [if_neg h]

/-- Each per-row segment taken by `SliceCols` has length `hi - lo`. -/
lemma goSlice_colSeg_length {α : Type} (m : Matrix α) (hm : m.WF) {lo hi : Int}
    (h0 : 0 ≤ lo) (hle : lo ≤ hi) (hhi : hi ≤ m.cols) {i : Int} (hi0 : 0 ≤ i)
    (hir : i < m.rows) :
    (goSlice m.data (i * m.cols + lo) (i * m.cols + hi)).length =
      (hi - lo).toNat := by
  unfold goSlice
  rw [List.length_take, List.length_drop]
  have hcn := Int.toNat_of_nonneg hm.2.1
  have ha : (i * m.cols + lo).toNat = i.toNat * m.cols.toNat + lo.toNat := by
    rw [show i * m.cols + lo = ((i.toNat * m.cols.toNat + lo.toNat : Nat) : Int) by
      push_cast [hcn, Int.toNat_of_nonneg hi0, Int.toNat_of_nonneg h0]; ring,
      Int.toNat_natCast]
  have hb : (i * m.cols + hi).toNat = i.toNat * m.cols.toNat + hi.toNat := by
    rw [show i * m.cols + hi = ((i.toNat * m.cols.toNat + hi.toNat : Nat) : Int) by
      push_cast [hcn, Int.toNat_of_nonneg hi0,
        Int.toNat_of_nonneg (le_trans h0 hle)]; ring,
      Int.toNat_natCast]
  have hlen := Matrix.length_data_WF hm
  have hmul : (i.toNat + 1) * m.cols.toNat ≤ m.rows.toNat * m.cols.toNat :=
    Nat.mul_le_mul_right _ (by omega)
  rw [Nat.succ_mul] at hmul
  have hhi' : hi.toNat ≤ m.cols.toNat := by omega
  rw [ha, hb, hlen]
  omega

lemma Matrix.SliceCols_data_length {α : Type} {m : Matrix α} (hm : m.WF)
    {lo hi : Int} (h0 : 0 ≤ lo) (hle : lo ≤ hi) (hhi : hi ≤ m.cols) :
    ((intRange m.rows).flatMap
      (fun i => goSlice m.data (i * m.cols + lo) (i * m.cols + hi))).length =
      m.rows.toNat * (hi - lo).toNat := by
  rw [length_flatMap_uniform _ _ (hi - lo).toNat ?_, intRange_length]
  intro x hx
  obtain ⟨hx0, hxr⟩ := mem_intRange.1 hx
  exact goSlice_colSeg_length m hm h0 hle hhi hx0 hxr

lemma Matrix.SliceCols_WF {α : Type} {m : Matrix α} (hm : m.WF) {lo hi : Int}
    (h0 : 0 ≤ lo) (hle : lo ≤ hi) (hhi : hi ≤ m.cols) :
    (Matrix.mk m.rows (hi - lo)
      ((intRange m.rows).flatMap
        (fun i => goSlice m.data (i * m.cols + lo) (i * m.cols + hi)))).WF := by
  refine ⟨hm.1, by show (0 : Int) ≤ hi - lo; omega, ?_⟩
  show ((((intRange m.rows).flatMap _).length : Nat) : Int) = m.rows * (hi - lo)
  rw [Matrix.SliceCols_data_length hm h0 hle hhi]
  push_cast [Int.toNat_of_nonneg hm.1, Int.toNat_of_nonneg (by omega : (0:Int) ≤ hi - lo)]
  ring

lemma Matrix.SliceRows_WF {α : Type} [Zero α] {m : Matrix α} (hm : m.WF)
    {lo hi : Int} (_h0 : 0 ≤ lo) (hle : lo ≤ hi) (_hhi : hi ≤ m.rows) :
    (Matrix.mk (hi - lo) m.cols
      (goCopy (m.cols * (hi - lo)).toNat
        (goSlice m.data (lo * m.cols) (hi * m.cols)))).WF := by
  refine ⟨by show (0 : Int) ≤ hi - lo; omega, hm.2.1, ?_⟩
  show (((goCopy _ _).length : Nat) : Int) = (hi - lo) * m.cols
  rw [goCopy_length, Int.toNat_of_nonneg (mul_nonneg hm.2.1 (by omega))]
  ring

/-! ### Claims -/

/-- C2: for every pair of conformant matrices, `ParallelProduct` returns the
same matrix as `Product`, cell for cell: both run the identical inner
accumulation `p += a.at(i,k) * b.at(k,j)` in the same `k` order
(`prodCell`), and the row tasks write disjoint output rows before the
`WaitGroup` join, so the joined buffer equals the sequential one.  The
element type `α` carries no algebraic laws here, so the equality is
bit-for-bit under any element semantics, IEEE doubles included. -/
theorem C2_parallel_eq_sequential {α : Type} [Zero α] [Add α] [Mul α]
    (a b : Matrix α) (_hab : a.cols = b.rows) :
    ParallelProduct a b = Product a b := by
  unfold ParallelProduct Product rowTask writes2
  rfl

/-- C2 witness: the source test's `2x3 · 3x2` case, conformant. -/
theorem C2_witness :
    (Matrix.mk 2 3 ([1,1,1,1,1,1] : List Int)).cols =
      (Matrix.mk 3 2 ([2,2,2,2,2,2] : List Int)).rows ∧
    ParallelProduct (Matrix.mk 2 3 ([1,1,1,1,1,1] : List Int))
        (Matrix.mk 3 2 ([2,2,2,2,2,2] : List Int)) =
      Product (Matrix.mk 2 3 ([1,1,1,1,1,1] : List Int))
        (Matrix.mk 3 2 ([2,2,2,2,2,2] : List Int)) :=
  ⟨rfl, C2_parallel_eq_sequential _ _ rfl⟩

/-- C3 counterexample: `a : 2x3`, `b : 5x2` (so `a.cols = 3 ≠ 5 = b.rows`),
all cells 1.  `BlasProduct` does not fail with `DimensionMismatch`: the
source has no dimension check before calling `Gemm`, and the routine takes
`k` from `a`'s column count, silently using only the first 3 rows of `b`
and returning a `2x2` result of threes. -/
theorem C3_counterexample :
    (Matrix.mk 2 3 ([1,1,1,1,1,1] : List Int)).cols ≠
      (Matrix.mk 5 2 ([1,1,1,1,1,1,1,1,1,1] : List Int)).rows ∧
    BlasProduct (Matrix.mk 2 3 ([1,1,1,1,1,1] : List Int))
        (Matrix.mk 5 2 ([1,1,1,1,1,1,1,1,1,1] : List Int)) =
      .ok ⟨2, 2, [3,3,3,3]⟩ ∧
    BlasProduct (Matrix.mk 2 3 ([1,1,1,1,1,1] : List Int))
        (Matrix.mk 5 2 ([1,1,1,1,1,1,1,1,1,1] : List Int)) ≠
      .error .dimensionMismatch := by
  refine ⟨by decide, rfl, ?_⟩
  intro h
  rw [show BlasProduct (Matrix.mk 2 3 ([1,1,1,1,1,1] : List Int))
      (Matrix.mk 5 2 ([1,1,1,1,1,1,1,1,1,1] : List Int)) =
      .ok ⟨2, 2, [3,3,3,3]⟩ from rfl] at h
  exact Except.noConfusion h

/-- C3 amended: `BlasProduct` performs no dimension-compatibility check of
its own: for every pair of matrices with nonnegative dimensions — whether or
not `a.cols = b.rows` — it returns `ok` with an `(a.rows, b.cols)`-shaped
result of the external gemm call, and in particular never fails with
`DimensionMismatch`. -/
theorem C3_blas_unchecked {α : Type} [Zero α] [One α] [Add α] [Mul α]
    (a b : Matrix α) (ha : 0 ≤ a.rows) (hb : 0 ≤ b.cols) :
    (∃ c, BlasProduct a b = .ok c ∧ c.rows = a.rows ∧ c.cols = b.cols) ∧
    ∀ e : MatError, BlasProduct a b ≠ .error e := by
  have hnn : ¬ (a.rows * b.cols < 0) := not_lt.2 (mul_nonneg ha hb)
  unfold BlasProduct
  rw [if_neg hnn]
  exact ⟨⟨_, rfl, rfl, rfl⟩, fun e h => Except.noConfusion h⟩

/-- C3 witness: the counterexample pair has nonnegative dimensions, so the
amended theorem applies to it. -/
theorem C3_witness :
    (∃ c, BlasProduct (Matrix.mk 2 3 ([1,1,1,1,1,1] : List Int))
        (Matrix.mk 5 2 ([1,1,1,1,1,1,1,1,1,1] : List Int)) = .ok c ∧
      c.rows = (Matrix.mk 2 3 ([1,1,1,1,1,1] : List Int)).rows ∧
      c.cols = (Matrix.mk 5 2 ([1,1,1,1,1,1,1,1,1,1] : List Int)).cols) ∧
    ∀ e : MatError,
      BlasProduct (Matrix.mk 2 3 ([1,1,1,1,1,1] : List Int))
        (Matrix.mk 5 2 ([1,1,1,1,1,1,1,1,1,1] : List Int)) ≠ .error e :=
  C3_blas_unchecked _ _ (by decide) (by decide)

/-- C4 failing input: `Apply` writes through the receiver's shared slice
header, so the caller-visible matrix is mutated in place — on the 1x1 zero
matrix, `Apply(fun i j => 7)` leaves the caller's cell `(0,0)` equal to `7`,
not its pre-call value `0`.  This contradicts the claim (and the package
doc: the library is advertised as completely immutable). -/
theorem C4_apply_mutates :
    (New 1 1 : Except MatError (Matrix Int)) = .ok ⟨1, 1, [0]⟩ ∧
    (Matrix.mk 1 1 ([0] : List Int)).Apply (fun _ _ => 7) = ⟨1, 1, [7]⟩ ∧
    ((Matrix.mk 1 1 ([0] : List Int)).Apply (fun _ _ => 7)).at' 0 0 ≠
      (Matrix.mk 1 1 ([0] : List Int)).at' 0 0 := by
  refine ⟨rfl, rfl, by decide⟩

/-- C8: `SliceCols` and `SliceRows` fail with `InvalidRange` exactly when
`from < 0`, `to >` the sliced dimension, or `to < from`; otherwise they
return a matrix of dimensions `(rows, to-from)` respectively
`(to-from, cols)`, well-formed whenever the input is (so `from = to` gives a
valid empty-dimension matrix). -/
theorem C8_slice_ranges {α : Type} [Zero α] (m : Matrix α) (lo hi : Int) :
    (m.SliceCols lo hi = .error .invalidRange ↔
      (lo < 0 ∨ hi > m.cols ∨ hi < lo)) ∧
    (m.SliceRows lo hi = .error .invalidRange ↔
      (lo < 0 ∨ hi > m.rows ∨ hi < lo)) ∧
    (¬ (lo < 0 ∨ hi > m.cols ∨ hi < lo) →
      ∃ s, m.SliceCols lo hi = .ok s ∧ s.rows = m.rows ∧ s.cols = hi - lo ∧
        (m.WF → s.WF)) ∧
    (¬ (lo < 0 ∨ hi > m.rows ∨ hi < lo) →
      ∃ s, m.SliceRows lo hi = .ok s ∧ s.rows = hi - lo ∧ s.cols = m.cols ∧
        (m.WF → s.WF)) := by
  refine ⟨?_, ?_, ?_, ?_⟩
  · constructor
    · intro h
      by_contra hc
      rw [Matrix.SliceCols_ok m lo hi hc] at h
      exact Except.noConfusion h
    · intro h
      unfold Matrix.SliceCols
      rw [if_pos h]
  · constructor
    · intro h
      by_contra hc
      rw [Matrix.SliceRows_ok m lo hi hc] at h
      exact Except.noConfusion h
    · intro h
      unfold Matrix.SliceRows
      rw [if_pos h]
  · intro hc
    refine ⟨_, Matrix.SliceCols_ok m lo hi hc, rfl, rfl, ?_⟩
    intro hm
    exact Matrix.SliceCols_WF hm (by omega) (by omega) (by omega)
  · intro hc
    refine ⟨_, Matrix.SliceRows_ok m lo hi hc, rfl, rfl, ?_⟩
    intro hm
    exact Matrix.SliceRows_WF hm (by omega) (by omega) (by omega)

/-- C8 witness: slicing the middle column range `[1, 3)` and the empty range
`[2, 2)` of a well-formed `2x3` matrix. -/
theorem C8_witness :
    ∃ s, (Matrix.mk 2 3 ([0,1,2,10,11,12] : List Int)).SliceCols 1 3 =
        .ok s ∧ s.rows = (Matrix.mk 2 3 ([0,1,2,10,11,12] : List Int)).rows ∧
      s.cols = 3 - 1 ∧
      ((Matrix.mk 2 3 ([0,1,2,10,11,12] : List Int)).WF → s.WF) :=
  (C8_slice_ranges (Matrix.mk 2 3 ([0,1,2,10,11,12] : List Int)) 1 3).2.2.1
    (by decide)

/-- C10: the constructor validates nothing: `New(-1, 3)` fails with the Go
runtime's allocation panic, which is not one of the four taxonomy errors,
and `New(-1, -1)` (product nonnegative) succeeds, returning a matrix whose
dimension fields are negative — not a well-formed value of the data model. -/
theorem C10_new_unvalidated :
    (New (-1) 3 : Except MatError (Matrix Int)) = .error .runtimeAlloc ∧
    (MatError.runtimeAlloc ∉ [MatError.dimensionMismatch,
      MatError.indexOutOfRange, MatError.invalidRange, MatError.emptyInput]) ∧
    (New (-1) (-1) : Except MatError (Matrix Int)) = .ok ⟨-1, -1, [0]⟩ ∧
    ¬ (Matrix.mk (-1) (-1) ([0] : List Int)).WF := by
  refine ⟨rfl, by decide, rfl, ?_⟩
  intro h
  have h1 : (0 : Int) ≤ -1 := h.1
  omega

lemma foldl_add_eq_sum {α : Type} [AddCommMonoid α] (n : Nat) (f : Nat → α) :
    (List.range n).foldl (fun p k => p + f k) 0 = ∑ k in Finset.range n, f k := by
  induction n with
  | zero => simp
  | succ n ih =>
    rw [List.range_succ, List.foldl_append, List.foldl_cons, List.foldl_nil, ih,
      Finset.sum_range_succ]

/-- The inner accumulation of the triple loop is the mathematical inner
product of row `i` of `a` and column `j` of `b`. -/
lemma prodCell_eq_sum {α : Type} [AddCommMonoid α] [Mul α] (a b : Matrix α)
    (i j : Int) :
    prodCell a b i j = ∑ k in Finset.range a.cols.toNat,
      a.at' i (k : Int) * b.at' (k : Int) j := by
  unfold prodCell intRange
  rw [List.foldl_map]
  exact foldl_add_eq_sum a.cols.toNat (fun k => a.at' i (k : Int) * b.at' (k : Int) j)

/-- C1: `Product` fails with `DimensionMismatch` iff `a.cols != b.rows`;
otherwise (for well-formed operands) it returns a well-formed
`(a.rows, b.cols)` matrix whose cell `(i, j)` is
`sum over k < a.cols of a(i,k)*b(k,j)`. -/
theorem C1_product_contract {α : Type} [AddCommMonoid α] [Mul α]
    (a b : Matrix α) :
    (a.cols ≠ b.rows → Product a b = .error .dimensionMismatch) ∧
    (a.cols = b.rows → a.WF → b.WF →
      ∃ c, Product a b = .ok c ∧ c.rows = a.rows ∧ c.cols = b.cols ∧ c.WF ∧
        ∀ i j : Int, 0 ≤ i → i < a.rows → 0 ≤ j → j < b.cols →
          c.at' i j = ∑ k in Finset.range a.cols.toNat,
            a.at' i (k : Int) * b.at' (k : Int) j) := by
  constructor
  · intro h
    unfold Product
    rw [if_pos h]
  · intro hab ha hb
    unfold Product
    rw [if_neg (not_not_intro hab)]
    have hlen0 : (List.replicate (a.rows * b.cols).toNat (0 : α)).length =
        a.rows.toNat * b.cols.toNat := by
      rw [List.length_replicate, toNat_mul ha.1 hb.2.1]
    refine ⟨_, rfl, rfl, rfl, ⟨ha.1, hb.2.1, ?_⟩, ?_⟩
    · show (((writes2 _ _ _ _ _).length : Nat) : Int) = a.rows * b.cols
      rw [writes2_length, List.length_replicate,
        Int.toNat_of_nonneg (mul_nonneg ha.1 hb.2.1)]
    · intro i j hi0 hiR hj0 hjC
      show (writes2 a.rows b.cols (fun i j => b.cols * i + j) (prodCell a b)
        (List.replicate (a.rows * b.cols).toNat 0)).getD
          (b.cols * i + j).toNat 0 = _
      rw [writes2_rowMajor_getD a.rows b.cols hb.2.1 (prodCell a b) _
        (le_of_eq hlen0.symm) hi0 hiR hj0 hjC]
      exact prodCell_eq_sum a b i j

/-- C1 witness: the source test's `2x3` all-ones times `3x2` all-twos. -/
theorem C1_witness :
    ∃ c, Product (Matrix.mk 2 3 ([1,1,1,1,1,1] : List Int))
        (Matrix.mk 3 2 ([2,2,2,2,2,2] : List Int)) = .ok c ∧
      c.rows = (Matrix.mk 2 3 ([1,1,1,1,1,1] : List Int)).rows ∧
      c.cols = (Matrix.mk 3 2 ([2,2,2,2,2,2] : List Int)).cols ∧ c.WF ∧
      ∀ i j : Int, 0 ≤ i → i < (Matrix.mk 2 3 ([1,1,1,1,1,1] : List Int)).rows →
        0 ≤ j → j < (Matrix.mk 3 2 ([2,2,2,2,2,2] : List Int)).cols →
        c.at' i j = ∑ k in
          Finset.range (Matrix.mk 2 3 ([1,1,1,1,1,1] : List Int)).cols.toNat,
          (Matrix.mk 2 3 ([1,1,1,1,1,1] : List Int)).at' i (k : Int) *
            (Matrix.mk 3 2 ([2,2,2,2,2,2] : List Int)).at' (k : Int) j :=
  (C1_product_contract (Matrix.mk 2 3 ([1,1,1,1,1,1] : List Int))
    (Matrix.mk 3 2 ([2,2,2,2,2,2] : List Int))).2 rfl
    ⟨by decide, by decide, by decide⟩ ⟨by decide, by decide, by decide⟩

/-- IEEE `==` is symmetric (on every operand pair, NaN included). -/
lemma FP64.feq_symm : ∀ x y : FP64, (x == y) = (y == x)
  | .nan, .nan => rfl
  | .nan, .num _ => rfl
  | .num _, .nan => rfl
  | .num _a, .num _b => decide_eq_decide.2 ⟨Eq.symm, Eq.symm⟩

/-- For same-dimension well-formed matrices, buffer-index agreement under
the element comparison is the same as cell agreement at all valid
positions. -/
lemma getD_agree_iff_cells {α : Type} [Zero α] [BEq α] {a b : Matrix α}
    (ha : a.WF) (hr : a.rows = b.rows) (hc : a.cols = b.cols) :
    (∀ q, q < a.data.length →
      (a.data.getD q 0 == b.data.getD q 0) = true) ↔
    (∀ i j : Int, 0 ≤ i → i < a.rows → 0 ≤ j → j < a.cols →
      (a.at' i j == b.at' i j) = true) := by
  have hlen := Matrix.length_data_WF ha
  constructor
  · intro hidx i j hi0 hiR hj0 hjC
    have hidxNat : (a.cols * i + j).toNat = i.toNat * a.cols.toNat + j.toNat := by
      rw [show a.cols * i + j = ((i.toNat * a.cols.toNat + j.toNat : Nat) : Int) by
        push_cast [Int.toNat_of_nonneg ha.2.1, Int.toNat_of_nonneg hi0,
          Int.toNat_of_nonneg hj0]; ring, Int.toNat_natCast]
    have hq : i.toNat * a.cols.toNat + j.toNat < a.data.length := by
      rw [hlen]
      have hmul : (i.toNat + 1) * a.cols.toNat ≤ a.rows.toNat * a.cols.toNat :=
        Nat.mul_le_mul_right _ (by omega)
      rw [Nat.succ_mul] at hmul
      omega
    unfold Matrix.at'
    rw [hidxNat, ← hc, hidxNat]
    exact hidx _ hq
  · intro hcells q hq
    rw [hlen] at hq
    have hcn : 0 < a.cols.toNat := by
      rcases Nat.eq_zero_or_pos a.cols.toNat with h0 | h0
      · rw [h0, Nat.mul_zero] at hq; omega
      · exact h0
    have hjlt : q % a.cols.toNat < a.cols.toNat := Nat.mod_lt _ hcn
    have hilt : q / a.cols.toNat < a.rows.toNat :=
      (Nat.div_lt_iff_lt_mul hcn).2 hq
    have har := ha.1
    have hac := ha.2.1
    have h := hcells ((q / a.cols.toNat : Nat) : Int)
      ((q % a.cols.toNat : Nat) : Int) (Int.natCast_nonneg _)
      (by rw [← Int.toNat_of_nonneg har]; exact_mod_cast hilt)
      (Int.natCast_nonneg _)
      (by rw [← Int.toNat_of_nonneg hac]; exact_mod_cast hjlt)
    unfold Matrix.at' at h
    have hidxNat : (a.cols * ((q / a.cols.toNat : Nat) : Int) +
        ((q % a.cols.toNat : Nat) : Int)).toNat = q := by
      rw [show a.cols * ((q / a.cols.toNat : Nat) : Int) +
          ((q % a.cols.toNat : Nat) : Int) =
          ((a.cols.toNat * (q / a.cols.toNat) + q % a.cols.toNat : Nat) : Int) by
        push_cast [Int.toNat_of_nonneg ha.2.1]; ring, Int.toNat_natCast,
        Nat.div_add_mod]
    rw [hidxNat, ← hc, hidxNat] at h
    exact h

/-- C5 counterexample: `Equals` is not reflexive on every matrix.  The
source compares cells with the IEEE float64 `!=` and `NaN != NaN` holds, so
the well-formed `1x1` matrix holding NaN compares unequal to itself. -/
theorem C5_counterexample :
    (Matrix.mk 1 1 [FP64.nan]).WF ∧
    Equals (Matrix.mk 1 1 [FP64.nan]) (Matrix.mk 1 1 [FP64.nan]) = false :=
  ⟨⟨by decide, by decide, by decide⟩, rfl⟩

/-- C5 amended: `Equals` is reflexive on every matrix all of whose cells
compare equal to themselves under the element comparison — for IEEE
float64, every NaN-free matrix — though not on every matrix (see the NaN
counterexample); it is symmetric on well-formed matrices whenever the
element comparison is symmetric (IEEE `==` is, `FP64.feq_symm`); it is
false whenever the dimensions differ, regardless of contents; and on
same-dimension well-formed matrices it is true exactly when every
corresponding pair of cells compares equal under the element comparison
(exact, no tolerance). -/
theorem C5_equals_props {α : Type} [Zero α] [BEq α]
    (m a b : Matrix α) (ha : a.WF) (hb : b.WF) :
    ((∀ x ∈ m.data, (x == x) = true) → Equals m m = true) ∧
    ((∀ x y : α, (x == y) = (y == x)) → Equals a b = Equals b a) ∧
    ((a.rows ≠ b.rows ∨ a.cols ≠ b.cols) → Equals a b = false) ∧
    (a.rows = b.rows → a.cols = b.cols →
      (Equals a b = true ↔
        ∀ i j : Int, 0 ≤ i → i < a.rows → 0 ≤ j → j < a.cols →
          (a.at' i j == b.at' i j) = true)) := by
  refine ⟨?_, ?_, ?_, ?_⟩
  · intro hrefl
    unfold Equals
    rw [if_neg (by simp)]
    rw [List.all_eq_true]
    intro q hq
    have hq' := List.mem_range.1 hq
    have hmem : m.data.getD q 0 ∈ m.data := by
      rw [List.getD_eq_getElem?_getD, List.getElem?_eq_getElem hq',
        Option.getD_some]
      exact List.getElem_mem hq'
    exact hrefl _ hmem
  · intro hsymm
    unfold Equals
    by_cases h1 : a.cols ≠ b.cols ∨ a.rows ≠ b.rows
    · rw [if_pos h1, if_pos (by omega)]
    · push_neg at h1
      rw [if_neg (by omega), if_neg (by omega)]
      have hlen : a.data.length = b.data.length := by
        have h2 : (a.data.length : Int) = (b.data.length : Int) := by
          rw [ha.2.2, hb.2.2, h1.1, h1.2]
        exact_mod_cast h2
      rw [hlen]
      congr 1
      funext q
      exact hsymm _ _
  · intro h
    unfold Equals
    rw [if_pos (by omega)]
  · intro hr hc
    have hcond : ¬ (a.cols ≠ b.cols ∨ a.rows ≠ b.rows) := by omega
    unfold Equals
    rw [if_neg hcond, List.all_eq_true]
    rw [← getD_agree_iff_cells ha hr hc]
    constructor
    · intro h q hq
      exact h q (List.mem_range.2 hq)
    · intro h q hq
      exact h q (List.mem_range.1 hq)

/-- C5 witness: IEEE-modelled `FP64` matrices — a NaN-free one compared to
itself, and two same-dimension well-formed ones, with the IEEE comparison's
symmetry discharged by `FP64.feq_symm`. -/
theorem C5_witness :
    Equals (Matrix.mk 1 2 [FP64.num 3, FP64.num 4])
      (Matrix.mk 1 2 [FP64.num 3, FP64.num 4]) = true ∧
    Equals (Matrix.mk 1 2 [FP64.num 1, FP64.nan])
        (Matrix.mk 1 2 [FP64.num 1, FP64.num 2]) =
      Equals (Matrix.mk 1 2 [FP64.num 1, FP64.num 2])
        (Matrix.mk 1 2 [FP64.num 1, FP64.nan]) ∧
    (Equals (Matrix.mk 1 2 [FP64.num 1, FP64.nan])
        (Matrix.mk 1 2 [FP64.num 1, FP64.num 2]) = true ↔
      ∀ i j : Int, 0 ≤ i → i < (Matrix.mk 1 2 [FP64.num 1, FP64.nan]).rows →
        0 ≤ j → j < (Matrix.mk 1 2 [FP64.num 1, FP64.nan]).cols →
        ((Matrix.mk 1 2 [FP64.num 1, FP64.nan]).at' i j ==
          (Matrix.mk 1 2 [FP64.num 1, FP64.num 2]).at' i j) = true) := by
  have h := C5_equals_props (Matrix.mk 1 2 [FP64.num 3, FP64.num 4])
    (Matrix.mk 1 2 [FP64.num 1, FP64.nan])
    (Matrix.mk 1 2 [FP64.num 1, FP64.num 2])
    ⟨by decide, by decide, by decide⟩ ⟨by decide, by decide, by decide⟩
  refine ⟨h.1 ?_, h.2.1 FP64.feq_symm, h.2.2.2 rfl rfl⟩
  intro x hx
  rcases List.mem_cons.1 hx with rfl | hx2
  · rfl
  rcases List.mem_cons.1 hx2 with rfl | hx3
  · rfl
  exact absurd hx3 (List.not_mem_nil x)

/-- Extracting chunk `i` from a flatMap of uniform-length chunks over
`intRange n`. -/
lemma chunk_extract {α : Type} (n : Int) (c : Nat) (f : Int → List α)
    (hlen : ∀ x ∈ intRange n, (f x).length = c) {i : Nat} (hi : i < n.toNat) :
    (((intRange n).flatMap f).drop (i * c)).take c = f (i : Int) := by
  have hix : i < (intRange n).length := by rw [intRange_length]; omega
  rw [drop_flatMap_uniform c f (intRange n) i hix hlen]
  have hget : (intRange n).get ⟨i, hix⟩ = (i : Int) := by
    unfold intRange
    rw [List.get_eq_getElem, List.getElem_map, List.getElem_range]
  rw [hget, ← hlen (i : Int) (mem_intRange.2 ⟨Int.natCast_nonneg i, by omega⟩),
    List.take_left]

lemma sum_cols_cast {α : Type} (ms : List (Matrix α))
    (h : ∀ m ∈ ms, 0 ≤ m.cols) :
    (((ms.map (fun m => m.cols.toNat)).sum : Nat) : Int) =
      (ms.map Matrix.cols).sum := by
  induction ms with
  | nil => simp
  | cons x xs ih =>
    simp only [List.map_cons, List.sum_cons]
    rw [Nat.cast_add, Int.toNat_of_nonneg (h x (List.mem_cons_self x xs)),
      ih (fun m hm => h m (List.mem_cons_of_mem x hm))]

/-- Each per-row block built by `ConcatenateCols` has length equal to the
sum of the inputs' column counts. -/
lemma concat_block_length {α : Type} (ms : List (Matrix α))
    (hwf : ∀ x ∈ ms, x.WF) (rows : Int) (hrows : ∀ x ∈ ms, x.rows = rows)
    {i : Int} (hi : i ∈ intRange rows) :
    (ms.flatMap (fun m => m.rowSeg i)).length =
      (ms.map (fun m => m.cols.toNat)).sum := by
  rw [List.length_flatMap]
  congr 1
  apply List.map_congr_left
  intro x hx
  obtain ⟨hi0, hir⟩ := mem_intRange.1 hi
  have hxr := hrows x hx
  have hcast : ((i.toNat : Nat) : Int) = i := Int.toNat_of_nonneg hi0
  show (x.rowSeg i).length = x.cols.toNat
  rw [← hcast]
  exact x.rowSeg_length (hwf x hx) i.toNat (by omega)

lemma ConcatenateCols_ok {α : Type} (m0 : Matrix α) (rest : List (Matrix α))
    (h : ∀ x ∈ m0 :: rest, x.rows = m0.rows) :
    ConcatenateCols (m0 :: rest) =
      .ok ⟨m0.rows, ((m0 :: rest).map Matrix.cols).sum,
        (intRange m0.rows).flatMap
          (fun i => (m0 :: rest).flatMap (fun m => m.rowSeg i))⟩ := by
  simp only [ConcatenateCols]
  rw [if_pos]
  rw [List.all_eq_true]
  intro x hx
  exact decide_eq_true (h x hx)

/-- C9: `ConcatenateCols` fails with `EmptyInput` on zero matrices and with
`DimensionMismatch` when two inputs differ in row count; otherwise the
result has the shared row count, the summed column count, is well-formed,
and each of its rows is the concatenation of the inputs' corresponding row
segments in argument order. -/
theorem C9_concatenateCols_contract {α : Type} (ms : List (Matrix α)) :
    (ms = [] → ConcatenateCols ms = .error .emptyInput) ∧
    ((∃ x ∈ ms, ∃ y ∈ ms, x.rows ≠ y.rows) →
      ConcatenateCols ms = .error .dimensionMismatch) ∧
    (∀ m0 rest, ms = m0 :: rest → (∀ x ∈ ms, x.rows = m0.rows) →
      (∀ x ∈ ms, x.WF) →
      ∃ c, ConcatenateCols ms = .ok c ∧ c.rows = m0.rows ∧
        c.cols = (ms.map Matrix.cols).sum ∧ c.WF ∧
        ∀ i : Nat, i < m0.rows.toNat →
          c.rowSeg (i : Int) = ms.flatMap (fun m => m.rowSeg (i : Int))) := by
  refine ⟨?_, ?_, ?_⟩
  · rintro rfl
    rfl
  · intro ⟨x, hx, y, hy, hxy⟩
    cases ms with
    | nil => exact absurd hx (List.not_mem_nil x)
    | cons m0 rest =>
      simp only [ConcatenateCols]
      rw [if_neg]
      intro hall
      rw [List.all_eq_true] at hall
      exact hxy ((of_decide_eq_true (hall x hx)).trans
        (of_decide_eq_true (hall y hy)).symm)
  · rintro m0 rest rfl hrows hwf
    rw [ConcatenateCols_ok m0 rest hrows]
    have hwf0 := hwf m0 (List.mem_cons_self m0 rest)
    have hcolsnn : ∀ m ∈ m0 :: rest, 0 ≤ m.cols := fun m hm => (hwf m hm).2.1
    have hsum := sum_cols_cast (m0 :: rest) hcolsnn
    have hblock : ∀ x ∈ intRange m0.rows,
        ((m0 :: rest).flatMap (fun m => m.rowSeg x)).length =
          ((m0 :: rest).map (fun m => m.cols.toNat)).sum :=
      fun x hx => concat_block_length (m0 :: rest) hwf m0.rows hrows hx
    have hdatalen : ((intRange m0.rows).flatMap
        (fun i => (m0 :: rest).flatMap (fun m => m.rowSeg i))).length =
        m0.rows.toNat * ((m0 :: rest).map (fun m => m.cols.toNat)).sum := by
      rw [length_flatMap_uniform _ _ _ hblock, intRange_length]
    refine ⟨_, rfl, rfl, rfl, ⟨hwf0.1, ?_, ?_⟩, ?_⟩
    · show (0 : Int) ≤ ((m0 :: rest).map Matrix.cols).sum
      rw [← hsum]
      exact Int.natCast_nonneg _
    · show ((((intRange m0.rows).flatMap _).length : Nat) : Int) =
        m0.rows * ((m0 :: rest).map Matrix.cols).sum
      rw [hdatalen]
      push_cast [Int.toNat_of_nonneg hwf0.1, hsum]
      rfl
    · intro i hi
      rw [Matrix.rowSeg_eq _ (by
        show (0 : Int) ≤ ((m0 :: rest).map Matrix.cols).sum
        rw [← hsum]
        exact Int.natCast_nonneg _) i]
      show ((((intRange m0.rows).flatMap
          (fun i => (m0 :: rest).flatMap (fun m => m.rowSeg i))).drop
          (i * (((m0 :: rest).map Matrix.cols).sum).toNat)).take
          (((m0 :: rest).map Matrix.cols).sum).toNat) = _
      have htn : (((m0 :: rest).map Matrix.cols).sum).toNat =
          ((m0 :: rest).map (fun m => m.cols.toNat)).sum := by omega
      rw [htn]
      exact chunk_extract m0.rows _ _ hblock hi

/-- C9 witness: concatenating a `1x1` and a `1x2` matrix. -/
theorem C9_witness :
    ∃ c, ConcatenateCols [Matrix.mk 1 1 ([5] : List Int), Matrix.mk 1 2 [6, 7]]
        = .ok c ∧
      c.rows = (Matrix.mk 1 1 ([5] : List Int)).rows ∧
      c.cols = ([Matrix.mk 1 1 ([5] : List Int),
        Matrix.mk 1 2 [6, 7]].map Matrix.cols).sum ∧
      c.WF ∧
      ∀ i : Nat, i < (Matrix.mk 1 1 ([5] : List Int)).rows.toNat →
        c.rowSeg (i : Int) =
          [Matrix.mk 1 1 ([5] : List Int), Matrix.mk 1 2 [6, 7]].flatMap
            (fun m => m.rowSeg (i : Int)) :=
  (C9_concatenateCols_contract
    [Matrix.mk 1 1 ([5] : List Int), Matrix.mk 1 2 [6, 7]]).2.2
    (Matrix.mk 1 1 ([5] : List Int)) [Matrix.mk 1 2 [6, 7]] rfl (by decide)
    (by
      intro x hx
      rcases List.mem_cons.1 hx with rfl | hx2
      · exact ⟨by decide, by decide, by decide⟩
      rcases List.mem_cons.1 hx2 with rfl | hx3
      · exact ⟨by decide, by decide, by decide⟩
      exact absurd hx3 (List.not_mem_nil x))

lemma Matrix.ext' {α : Type} {a b : Matrix α} (h1 : a.rows = b.rows)
    (h2 : a.cols = b.cols) (h3 : a.data = b.data) : a = b := by
  cases a
  cases b
  simp_all

lemma flatMap_congr_mem {α β : Type} {l : List α} {f g : α → List β}
    (h : ∀ x ∈ l, f x = g x) : l.flatMap f = l.flatMap g := by
  induction l with
  | nil => rfl
  | cons x xs ih =>
    rw [List.flatMap_cons, List.flatMap_cons, h x (List.mem_cons_self x xs),
      ih (fun y hy => h y (List.mem_cons_of_mem x hy))]

/-- The per-row column slice in `Nat`-index form. -/
lemma goSlice_colSeg_natForm {α : Type} (m : Matrix α) (hc : 0 ≤ m.cols)
    {lo hi : Int} (h0 : 0 ≤ lo) (hhi : 0 ≤ hi) (i : Nat) :
    goSlice m.data ((i : Int) * m.cols + lo) ((i : Int) * m.cols + hi) =
      (m.data.drop (i * m.cols.toNat + lo.toNat)).take (hi.toNat - lo.toNat) := by
  unfold goSlice
  have hcn := Int.toNat_of_nonneg hc
  have ha : ((i : Int) * m.cols + lo).toNat = i * m.cols.toNat + lo.toNat := by
    rw [show (i : Int) * m.cols + lo = ((i * m.cols.toNat + lo.toNat : Nat) : Int) by
      push_cast [hcn, Int.toNat_of_nonneg h0]; ring, Int.toNat_natCast]
  have hb : ((i : Int) * m.cols + hi).toNat = i * m.cols.toNat + hi.toNat := by
    rw [show (i : Int) * m.cols + hi = ((i * m.cols.toNat + hi.toNat : Nat) : Int) by
      push_cast [hcn, Int.toNat_of_nonneg hhi]; ring, Int.toNat_natCast]
  rw [ha, hb]
  congr 1
  omega

lemma ConcatenateRows_ok {α : Type} (m0 : Matrix α) (rest : List (Matrix α))
    (h : ∀ x ∈ m0 :: rest, x.cols = m0.cols) :
    ConcatenateRows (m0 :: rest) =
      .ok ⟨((m0 :: rest).map Matrix.rows).sum, m0.cols,
        (m0 :: rest).flatMap Matrix.data⟩ := by
  simp only [ConcatenateRows]
  rw [if_pos]
  rw [List.all_eq_true]
  intro x hx
  exact decide_eq_true (h x hx)

/-- C7: slicing a well-formed matrix at `k` and concatenating the two parts
reassembles the matrix exactly, both column-wise and row-wise. -/
theorem C7_slice_concat_roundtrip {α : Type} [Zero α] (m : Matrix α) (k : Int)
    (hm : m.WF) (hk0 : 0 ≤ k) :
    (k ≤ m.cols →
      (do
        let s1 ← m.SliceCols 0 k
        let s2 ← m.SliceCols k m.cols
        ConcatenateCols [s1, s2]) = Except.ok m) ∧
    (k ≤ m.rows →
      (do
        let s1 ← m.SliceRows 0 k
        let s2 ← m.SliceRows k m.rows
        ConcatenateRows [s1, s2]) = Except.ok m) := by
  obtain ⟨hr, hc, hlenI⟩ := hm
  have hm' : m.WF := ⟨hr, hc, hlenI⟩
  have hlen := Matrix.length_data_WF hm'
  constructor
  · -- columns
    intro hkc
    have hs1 := Matrix.SliceCols_ok m 0 k (by omega)
    have hs2 := Matrix.SliceCols_ok m k m.cols (by omega)
    rw [hs1]
    show ((m.SliceCols k m.cols).bind fun s2 =>
      ConcatenateCols [⟨m.rows, k - 0,
        (intRange m.rows).flatMap
          (fun i => goSlice m.data (i * m.cols + 0) (i * m.cols + k))⟩, s2]) =
      Except.ok m
    rw [hs2]
    show ConcatenateCols [⟨m.rows, k - 0,
        (intRange m.rows).flatMap
          (fun i => goSlice m.data (i * m.cols + 0) (i * m.cols + k))⟩,
      ⟨m.rows, m.cols - k,
        (intRange m.rows).flatMap
          (fun i => goSlice m.data (i * m.cols + k) (i * m.cols + m.cols))⟩] =
      Except.ok m
    rw [ConcatenateCols_ok _ _ (by
      intro x hx
      rcases List.mem_cons.1 hx with rfl | hx2
      · rfl
      rcases List.mem_cons.1 hx2 with rfl | hx3
      · rfl
      exact absurd hx3 (List.not_mem_nil x))]
    congr 1
    apply Matrix.ext'
    · rfl
    · show (k - 0) + ((m.cols - k) + 0) = m.cols
      ring
    · show (intRange m.rows).flatMap _ = m.data
      conv_rhs => rw [Matrix.data_eq_rows m hm']
      apply flatMap_congr_mem
      intro i hi
      obtain ⟨hi0, hir⟩ := mem_intRange.1 hi
      have hicast : ((i.toNat : Nat) : Int) = i := Int.toNat_of_nonneg hi0
      rw [← hicast]
      show ([⟨m.rows, k - 0,
          (intRange m.rows).flatMap
            (fun x => goSlice m.data (x * m.cols + 0) (x * m.cols + k))⟩,
        ⟨m.rows, m.cols - k,
          (intRange m.rows).flatMap
            (fun x => goSlice m.data (x * m.cols + k) (x * m.cols + m.cols))⟩] :
          List (Matrix α)).flatMap
        (fun mm => mm.rowSeg ((i.toNat : Nat) : Int)) =
        m.rowSeg ((i.toNat : Nat) : Int)
      rw [List.flatMap_cons, List.flatMap_cons, List.flatMap_nil,
        List.append_nil]
      have hseg1 : (Matrix.mk m.rows (k - 0)
          ((intRange m.rows).flatMap
            (fun x => goSlice m.data (x * m.cols + 0) (x * m.cols + k)))).rowSeg
          ((i.toNat : Nat) : Int) =
          goSlice m.data ((i.toNat : Int) * m.cols + 0)
            ((i.toNat : Int) * m.cols + k) := by
        rw [Matrix.rowSeg_eq _ (by show (0 : Int) ≤ k - 0; omega) i.toNat]
        exact chunk_extract m.rows ((k - 0).toNat) _
          (fun x hx => goSlice_colSeg_length m hm' (le_refl 0) (by omega)
            (by omega) (mem_intRange.1 hx).1 (mem_intRange.1 hx).2)
          (by omega)
      have hseg2 : (Matrix.mk m.rows (m.cols - k)
          ((intRange m.rows).flatMap
            (fun x => goSlice m.data (x * m.cols + k) (x * m.cols + m.cols)))).rowSeg
          ((i.toNat : Nat) : Int) =
          goSlice m.data ((i.toNat : Int) * m.cols + k)
            ((i.toNat : Int) * m.cols + m.cols) := by
        rw [Matrix.rowSeg_eq _ (by show (0 : Int) ≤ m.cols - k; omega) i.toNat]
        exact chunk_extract m.rows ((m.cols - k).toNat) _
          (fun x hx => goSlice_colSeg_length m hm' (by omega) (by omega)
            (le_refl m.cols) (mem_intRange.1 hx).1 (mem_intRange.1 hx).2)
          (by omega)
      rw [hseg1, hseg2, Matrix.rowSeg_eq m hc i.toNat,
        goSlice_colSeg_natForm m hc (le_refl 0) (by omega) i.toNat,
        goSlice_colSeg_natForm m hc (by omega) (by omega) i.toNat]
      simp only [Int.toNat_zero, Nat.add_zero, Nat.sub_zero]
      rw [show m.data.drop (i.toNat * m.cols.toNat + k.toNat) =
        (m.data.drop (i.toNat * m.cols.toNat)).drop k.toNat by
          rw [List.drop_drop]]
      rw [← List.take_add]
      congr 1
      omega
  · -- rows
    intro hkr
    have hs1 := Matrix.SliceRows_ok m 0 k (by omega)
    have hs2 := Matrix.SliceRows_ok m k m.rows (by omega)
    rw [hs1]
    show ((m.SliceRows k m.rows).bind fun s2 =>
      ConcatenateRows [⟨k - 0, m.cols, goCopy (m.cols * (k - 0)).toNat
        (goSlice m.data (0 * m.cols) (k * m.cols))⟩, s2]) = Except.ok m
    rw [hs2]
    show ConcatenateRows [⟨k - 0, m.cols, goCopy (m.cols * (k - 0)).toNat
        (goSlice m.data (0 * m.cols) (k * m.cols))⟩,
      ⟨m.rows - k, m.cols, goCopy (m.cols * (m.rows - k)).toNat
        (goSlice m.data (k * m.cols) (m.rows * m.cols))⟩] = Except.ok m
    rw [ConcatenateRows_ok _ _ (by
      intro x hx
      rcases List.mem_cons.1 hx with rfl | hx2
      · rfl
      rcases List.mem_cons.1 hx2 with rfl | hx3
      · rfl
      exact absurd hx3 (List.not_mem_nil x))]
    congr 1
    apply Matrix.ext'
    · show (k - 0) + ((m.rows - k) + 0) = m.rows
      ring
    · rfl
    · show goCopy (m.cols * (k - 0)).toNat
          (goSlice m.data (0 * m.cols) (k * m.cols)) ++
        (goCopy (m.cols * (m.rows - k)).toNat
          (goSlice m.data (k * m.cols) (m.rows * m.cols)) ++ []) = m.data
      rw [List.append_nil]
      have h0cols : ((0 : Int) * m.cols).toNat = 0 := by
        rw [Int.zero_mul]
        rfl
      have hkcols : (k * m.cols).toNat = k.toNat * m.cols.toNat :=
        toNat_mul hk0 hc
      have hrcols : (m.rows * m.cols).toNat = m.rows.toNat * m.cols.toNat :=
        toNat_mul hr hc
      have hsrc1 : goSlice m.data (0 * m.cols) (k * m.cols) =
          m.data.take (k.toNat * m.cols.toNat) := by
        unfold goSlice
        rw [h0cols, hkcols, List.drop_zero, Nat.sub_zero]
      have hsrc1len : (m.data.take (k.toNat * m.cols.toNat)).length =
          k.toNat * m.cols.toNat := by
        rw [List.length_take, hlen]
        have hmul : k.toNat * m.cols.toNat ≤ m.rows.toNat * m.cols.toNat :=
          Nat.mul_le_mul_right _ (by omega)
        omega
      have hd1 : goCopy (m.cols * (k - 0)).toNat
          (goSlice m.data (0 * m.cols) (k * m.cols)) =
          m.data.take (k.toNat * m.cols.toNat) := by
        rw [hsrc1]
        apply goCopy_exact
        rw [hsrc1len, toNat_mul hc (by omega : (0 : Int) ≤ k - 0)]
        rw [show (k - 0).toNat = k.toNat by omega, Nat.mul_comm]
      have hsrc2 : goSlice m.data (k * m.cols) (m.rows * m.cols) =
          (m.data.drop (k.toNat * m.cols.toNat)).take
            (m.rows.toNat * m.cols.toNat - k.toNat * m.cols.toNat) := by
        unfold goSlice
        rw [hkcols, hrcols]
      have hsrc2len : ((m.data.drop (k.toNat * m.cols.toNat)).take
          (m.rows.toNat * m.cols.toNat - k.toNat * m.cols.toNat)).length =
          m.rows.toNat * m.cols.toNat - k.toNat * m.cols.toNat := by
        rw [List.length_take, List.length_drop, hlen]
        omega
      have hn2 : (m.cols * (m.rows - k)).toNat =
          m.rows.toNat * m.cols.toNat - k.toNat * m.cols.toNat := by
        rw [toNat_mul hc (by omega : (0 : Int) ≤ m.rows - k),
          show (m.rows - k).toNat = m.rows.toNat - k.toNat by omega,
          Nat.mul_sub, Nat.mul_comm m.cols.toNat m.rows.toNat,
          Nat.mul_comm m.cols.toNat k.toNat]
      have hd2 : goCopy (m.cols * (m.rows - k)).toNat
          (goSlice m.data (k * m.cols) (m.rows * m.cols)) =
          m.data.drop (k.toNat * m.cols.toNat) := by
        rw [hsrc2, hn2, goCopy_exact hsrc2len]
        apply List.take_of_length_le
        rw [List.length_drop, hlen]
      rw [hd1, hd2, List.take_append_drop]

/-- C7 witness: the round trip on a concrete well-formed `2x3` matrix at
`k = 1`, in both directions. -/
theorem C7_witness :
    (do
      let s1 ← (Matrix.mk 2 3 ([0,1,2,10,11,12] : List Int)).SliceCols 0 1
      let s2 ← (Matrix.mk 2 3 ([0,1,2,10,11,12] : List Int)).SliceCols 1
        (Matrix.mk 2 3 ([0,1,2,10,11,12] : List Int)).cols
      ConcatenateCols [s1, s2]) =
      Except.ok (Matrix.mk 2 3 ([0,1,2,10,11,12] : List Int)) ∧
    (do
      let s1 ← (Matrix.mk 2 3 ([0,1,2,10,11,12] : List Int)).SliceRows 0 1
      let s2 ← (Matrix.mk 2 3 ([0,1,2,10,11,12] : List Int)).SliceRows 1
        (Matrix.mk 2 3 ([0,1,2,10,11,12] : List Int)).rows
      ConcatenateRows [s1, s2]) =
      Except.ok (Matrix.mk 2 3 ([0,1,2,10,11,12] : List Int)) := by
  have h := C7_slice_concat_roundtrip
    (Matrix.mk 2 3 ([0,1,2,10,11,12] : List Int)) 1
    ⟨by decide, by decide, by decide⟩ (by decide)
  exact ⟨h.1 (by decide), h.2 (by decide)⟩

/-! ### Toolbox: invariant preservation per operation -/

lemma Map_WF {α : Type} [Zero α] {m : Matrix α} (hm : m.WF) (f : α → α) :
    (Map f m).WF := by
  unfold Map
  refine ⟨hm.1, hm.2.1, ?_⟩
  show ((((m.Clone).data.map f).length : Nat) : Int) = m.rows * m.cols
  rw [List.length_map, Matrix.Clone_eq hm]
  exact hm.2.2

lemma Matrix.Set_WF {α : Type} [Zero α] {m : Matrix α} (hm : m.WF)
    {i j : Int} {x : α} {c : Matrix α} (hok : m.Set i j x = .ok c) : c.WF := by
  simp only [Matrix.Set] at hok
  by_cases hchk : m.checkPos i j = true
  · rw [if_pos hchk] at hok
    exact absurd hok (fun h => Except.noConfusion h)
  · rw [if_neg hchk] at hok
    cases hok
    refine ⟨hm.1, hm.2.1, ?_⟩
    show (((setL (m.Clone).data (m.cols * i + j) x).length : Nat) : Int) =
      m.rows * m.cols
    rw [setL, List.length_set, Matrix.Clone_eq hm]
    exact hm.2.2

lemma Matrix.Apply_WF {α : Type} {m : Matrix α} (hm : m.WF)
    (f : Int → Int → α) : (m.Apply f).WF := by
  unfold Matrix.Apply
  refine ⟨hm.1, hm.2.1, ?_⟩
  show (((writes2 _ _ _ _ _).length : Nat) : Int) = m.rows * m.cols
  rw [writes2_length]
  exact hm.2.2

lemma Matrix.T_WF {α : Type} [Zero α] {m : Matrix α} (hm : m.WF) : m.T.WF := by
  unfold Matrix.T
  refine ⟨hm.2.1, hm.1, ?_⟩
  show (((writes2 _ _ _ _ _).length : Nat) : Int) = m.cols * m.rows
  rw [writes2_length, List.length_replicate, hm.2.2]
  ring

lemma Matrix.FilterRows_WF {α : Type} {m : Matrix α} (hm : m.WF)
    (f : Int → Bool) : (m.FilterRows f).WF := by
  unfold Matrix.FilterRows
  refine ⟨Int.natCast_nonneg _, hm.2.1, ?_⟩
  show (((((intRange m.rows).filter f).flatMap (fun i => m.rowSeg i)).length :
    Nat) : Int) = (((intRange m.rows).filter f).length : Int) * m.cols
  rw [length_flatMap_uniform _ _ m.cols.toNat ?_]
  · push_cast [Int.toNat_of_nonneg hm.2.1]
    rfl
  · intro x hx
    have hx' := (List.mem_filter.1 hx).1
    obtain ⟨hx0, hxr⟩ := mem_intRange.1 hx'
    have hcast := Int.toNat_of_nonneg hx0
    rw [← hcast]
    exact m.rowSeg_length hm x.toNat (by omega)

lemma ConcatenateCols_WF {α : Type} {ms : List (Matrix α)} {c : Matrix α}
    (hwf : ∀ x ∈ ms, x.WF) (hok : ConcatenateCols ms = .ok c) : c.WF := by
  cases ms with
  | nil => exact absurd hok (fun h => Except.noConfusion h)
  | cons m0 rest =>
    simp only [ConcatenateCols] at hok
    by_cases hall : (m0 :: rest).all (fun m => decide (m.rows = m0.rows)) = true
    · rw [if_pos hall] at hok
      cases hok
      have hrows : ∀ x ∈ m0 :: rest, x.rows = m0.rows := by
        rw [List.all_eq_true] at hall
        exact fun x hx => of_decide_eq_true (hall x hx)
      have hwf0 := hwf m0 (List.mem_cons_self m0 rest)
      have hcolsnn : ∀ x ∈ m0 :: rest, 0 ≤ x.cols := fun x hx => (hwf x hx).2.1
      have hsum := sum_cols_cast (m0 :: rest) hcolsnn
      refine ⟨hwf0.1, ?_, ?_⟩
      · show (0 : Int) ≤ ((m0 :: rest).map Matrix.cols).sum
        rw [← hsum]
        exact Int.natCast_nonneg _
      · show ((((intRange m0.rows).flatMap _).length : Nat) : Int) =
          m0.rows * ((m0 :: rest).map Matrix.cols).sum
        rw [length_flatMap_uniform _ _
          ((m0 :: rest).map (fun m => m.cols.toNat)).sum
          (fun x hx => concat_block_length (m0 :: rest) hwf m0.rows hrows hx),
          intRange_length]
        push_cast [Int.toNat_of_nonneg hwf0.1, hsum]
        rfl
    · rw [if_neg hall] at hok
      exact absurd hok (fun h => Except.noConfusion h)

lemma concatRows_data_length {α : Type} (ms : List (Matrix α)) (cols : Int)
    (hcols : ∀ x ∈ ms, x.cols = cols) (hwf : ∀ x ∈ ms, x.WF) :
    ((ms.flatMap Matrix.data).length : Int) = (ms.map Matrix.rows).sum * cols := by
  induction ms with
  | nil => simp
  | cons x xs ih =>
    rw [List.flatMap_cons, List.length_append, List.map_cons, List.sum_cons]
    push_cast
    rw [(hwf x (List.mem_cons_self x xs)).2.2, hcols x (List.mem_cons_self x xs),
      ih (fun y hy => hcols y (List.mem_cons_of_mem x hy))
        (fun y hy => hwf y (List.mem_cons_of_mem x hy)), add_mul]

lemma ConcatenateRows_WF {α : Type} {ms : List (Matrix α)} {c : Matrix α}
    (hwf : ∀ x ∈ ms, x.WF) (hok : ConcatenateRows ms = .ok c) : c.WF := by
  cases ms with
  | nil => exact absurd hok (fun h => Except.noConfusion h)
  | cons m0 rest =>
    simp only [ConcatenateRows] at hok
    by_cases hall : (m0 :: rest).all (fun m => decide (m.cols = m0.cols)) = true
    · rw [if_pos hall] at hok
      cases hok
      have hcols : ∀ x ∈ m0 :: rest, x.cols = m0.cols := by
        rw [List.all_eq_true] at hall
        exact fun x hx => of_decide_eq_true (hall x hx)
      have hwf0 := hwf m0 (List.mem_cons_self m0 rest)
      refine ⟨?_, hwf0.2.1, ?_⟩
      · show (0 : Int) ≤ ((m0 :: rest).map Matrix.rows).sum
        apply List.sum_nonneg
        intro x hx
        obtain ⟨y, hy, rfl⟩ := List.mem_map.1 hx
        exact (hwf y hy).1
      · exact concatRows_data_length (m0 :: rest) m0.cols hcols hwf
    · rw [if_neg hall] at hok
      exact absurd hok (fun h => Except.noConfusion h)

lemma dotApply_WF {α : Type} [Zero α] {a b : Matrix α} (ha : a.WF)
    {f : α → α → α} {c : Matrix α} (hok : dotApply a b f = .ok c) : c.WF := by
  simp only [dotApply] at hok
  by_cases hcond : a.cols ≠ b.cols ∨ a.rows ≠ b.rows
  · rw [if_pos hcond] at hok
    exact absurd hok (fun h => Except.noConfusion h)
  · rw [if_neg hcond] at hok
    cases hok
    refine ⟨ha.1, ha.2.1, ?_⟩
    show (((writes2 _ _ _ _ _).length : Nat) : Int) = a.rows * a.cols
    rw [writes2_length, List.length_replicate,
      Int.toNat_of_nonneg (mul_nonneg ha.1 ha.2.1)]

lemma Product_WF {α : Type} [Zero α] [Add α] [Mul α] {a b : Matrix α}
    (ha : a.WF) (hb : b.WF) {c : Matrix α} (hok : Product a b = .ok c) :
    c.WF := by
  simp only [Product] at hok
  by_cases hcond : a.cols ≠ b.rows
  · rw [if_pos hcond] at hok
    exact absurd hok (fun h => Except.noConfusion h)
  · rw [if_neg hcond] at hok
    cases hok
    refine ⟨ha.1, hb.2.1, ?_⟩
    show (((writes2 _ _ _ _ _).length : Nat) : Int) = a.rows * b.cols
    rw [writes2_length, List.length_replicate,
      Int.toNat_of_nonneg (mul_nonneg ha.1 hb.2.1)]

lemma ParallelProduct_WF {α : Type} [Zero α] [Add α] [Mul α] {a b : Matrix α}
    (ha : a.WF) (hb : b.WF) {c : Matrix α}
    (hok : ParallelProduct a b = .ok c) : c.WF := by
  simp only [ParallelProduct] at hok
  by_cases hcond : a.cols ≠ b.rows
  · rw [if_pos hcond] at hok
    exact absurd hok (fun h => Except.noConfusion h)
  · rw [if_neg hcond] at hok
    cases hok
    refine ⟨ha.1, hb.2.1, ?_⟩
    show ((((intRange a.rows).foldl (fun l i => rowTask a b i l)
      (List.replicate (a.rows * b.cols).toNat 0)).length : Nat) : Int) =
      a.rows * b.cols
    rw [foldl_length_inv _ _ (fun l i => by
      unfold rowTask
      exact foldl_length_inv _ _ (fun l' j => by simp [setL]) l) _,
      List.length_replicate, Int.toNat_of_nonneg (mul_nonneg ha.1 hb.2.1)]

lemma BlasProduct_WF {α : Type} [Zero α] [One α] [Add α] [Mul α]
    {a b : Matrix α} (ha : a.WF) (hb : b.WF) {c : Matrix α}
    (hok : BlasProduct a b = .ok c) : c.WF := by
  simp only [BlasProduct] at hok
  rw [if_neg (not_lt.2 (mul_nonneg ha.1 hb.2.1))] at hok
  cases hok
  refine ⟨ha.1, hb.2.1, ?_⟩
  show (((writes2 _ _ _ _ _).length : Nat) : Int) = a.rows * b.cols
  rw [writes2_length, List.length_replicate,
    Int.toNat_of_nonneg (mul_nonneg ha.1 hb.2.1)]

/-- C6: every matrix produced by a public operation (applied to well-formed
operands, with in-contract arguments) satisfies the representation
invariant `data.length = rows * cols` with nonnegative dimensions; and the
reading convention places cell `(i, j)` at linear offset `i*cols + j` of the
buffer.  Transpose and `FilterRows` (including when no row is kept) are
covered explicitly. -/
theorem C6_invariant_preservation {α : Type} [Zero α] [One α] [Add α] [Mul α]
    [Sub α] (m a b : Matrix α) (hm : m.WF) (ha : a.WF) (hb : b.WF) :
    (∀ rows cols : Int, 0 ≤ rows → 0 ≤ cols →
      ∃ c, (New rows cols : Except MatError (Matrix α)) = .ok c ∧ c.WF) ∧
    (∀ (rows cols : Int) (data : List α) c, 0 ≤ rows → 0 ≤ cols →
      FromSlice rows cols data = .ok c → c.WF) ∧
    (∀ (rows cols : Int) (f : Int → Int → α), 0 ≤ rows → 0 ≤ cols →
      ∃ c, FromFunc rows cols f = .ok c ∧ c.WF) ∧
    m.Clone.WF ∧
    (∀ f : α → α, (Map f m).WF) ∧
    (∀ x : α, (m.Scale x).WF) ∧
    (∀ x : α, (m.AddScalar x).WF) ∧
    (∀ (i j : Int) (x : α) c, m.Set i j x = .ok c → c.WF) ∧
    (∀ f : Int → Int → α, (m.Apply f).WF) ∧
    (∀ (lo hi : Int) c, m.SliceCols lo hi = .ok c → c.WF) ∧
    (∀ (lo hi : Int) c, m.SliceRows lo hi = .ok c → c.WF) ∧
    (∀ (ms : List (Matrix α)) c, (∀ x ∈ ms, x.WF) →
      ConcatenateCols ms = .ok c → c.WF) ∧
    (∀ (ms : List (Matrix α)) c, (∀ x ∈ ms, x.WF) →
      ConcatenateRows ms = .ok c → c.WF) ∧
    (∀ f : Int → Bool, (m.FilterRows f).WF) ∧
    (m.FilterRows (fun _ => false)).rows = 0 ∧
    m.T.WF ∧
    (∀ c, Product a b = .ok c → c.WF) ∧
    (∀ c, ParallelProduct a b = .ok c → c.WF) ∧
    (∀ c, BlasProduct a b = .ok c → c.WF) ∧
    (∀ c, Dot a b = .ok c → c.WF) ∧
    (∀ c, Plus a b = .ok c → c.WF) ∧
    (∀ c, Minus a b = .ok c → c.WF) ∧
    (∀ i j : Int, m.at' i j = m.data.getD (m.cols * i + j).toNat 0) := by
  refine ⟨?_, ?_, ?_, by rw [Matrix.Clone_eq hm]; exact hm, fun f => Map_WF hm f,
    fun x => Map_WF hm _, fun x => Map_WF hm _,
    fun i j x c hok => Matrix.Set_WF hm hok,
    fun f => Matrix.Apply_WF hm f, ?_, ?_,
    fun ms c hwf hok => ConcatenateCols_WF hwf hok,
    fun ms c hwf hok => ConcatenateRows_WF hwf hok,
    fun f => Matrix.FilterRows_WF hm f, ?_, Matrix.T_WF hm,
    fun c hok => Product_WF ha hb hok,
    fun c hok => ParallelProduct_WF ha hb hok,
    fun c hok => BlasProduct_WF ha hb hok,
    fun c hok => dotApply_WF ha hok,
    fun c hok => dotApply_WF ha hok,
    fun c hok => dotApply_WF ha hok,
    fun i j => rfl⟩
  · intro rows cols hr0 hc0
    have hok : (New rows cols : Except MatError (Matrix α)) =
        .ok ⟨rows, cols, List.replicate (rows * cols).toNat 0⟩ := by
      unfold New
      rw [if_neg (not_lt.2 (mul_nonneg hr0 hc0))]
    refine ⟨_, hok, hr0, hc0, ?_⟩
    show (((List.replicate (rows * cols).toNat (0 : α)).length : Nat) : Int) =
      rows * cols
    rw [List.length_replicate, Int.toNat_of_nonneg (mul_nonneg hr0 hc0)]
  · intro rows cols data c hr0 hc0 hok
    simp only [FromSlice] at hok
    by_cases hcond : (data.length : Int) ≠ rows * cols
    · rw [if_pos hcond] at hok
      exact absurd hok (fun h => Except.noConfusion h)
    · rw [if_neg hcond] at hok
      cases hok
      exact ⟨hr0, hc0, not_ne_iff.1 hcond⟩
  · intro rows cols f hr0 hc0
    have hok : (FromFunc rows cols f : Except MatError (Matrix α)) =
        .ok ⟨rows, cols, writes2 rows cols (fun i j => cols * i + j) f
          (List.replicate (rows * cols).toNat 0)⟩ := by
      unfold FromFunc
      rw [if_neg (not_lt.2 (mul_nonneg hr0 hc0))]
    refine ⟨_, hok, hr0, hc0, ?_⟩
    show (((writes2 _ _ _ _ _).length : Nat) : Int) = rows * cols
    rw [writes2_length, List.length_replicate,
      Int.toNat_of_nonneg (mul_nonneg hr0 hc0)]
  · intro lo hi c hok
    by_cases hcond : lo < 0 ∨ hi > m.cols ∨ hi < lo
    · rw [show m.SliceCols lo hi = .error .invalidRange by
        unfold Matrix.SliceCols; rw [if_pos hcond]] at hok
      exact absurd hok (fun h => Except.noConfusion h)
    · rw [Matrix.SliceCols_ok m lo hi hcond] at hok
      cases hok
      exact Matrix.SliceCols_WF hm (by omega) (by omega) (by omega)
  · intro lo hi c hok
    by_cases hcond : lo < 0 ∨ hi > m.rows ∨ hi < lo
    · rw [show m.SliceRows lo hi = .error .invalidRange by
        unfold Matrix.SliceRows; rw [if_pos hcond]] at hok
      exact absurd hok (fun h => Except.noConfusion h)
    · rw [Matrix.SliceRows_ok m lo hi hcond] at hok
      cases hok
      exact Matrix.SliceRows_WF hm (by omega) (by omega) (by omega)
  · show (((intRange m.rows).filter (fun _ => false)).length : Int) = 0
    rw [List.filter_false]
    rfl

/-- C6 witness: the invariant facts instantiated on concrete well-formed
matrices, in particular transpose and the keep-no-rows filter. -/
theorem C6_witness :
    (Matrix.mk 2 3 ([0,1,2,10,11,12] : List Int)).T.WF ∧
    ((Matrix.mk 2 3 ([0,1,2,10,11,12] : List Int)).FilterRows
      (fun i => i % 2 == 1)).WF ∧
    ((Matrix.mk 2 3 ([0,1,2,10,11,12] : List Int)).FilterRows
      (fun _ => false)).rows = 0 := by
  have h := C6_invariant_preservation
    (Matrix.mk 2 3 ([0,1,2,10,11,12] : List Int))
    (Matrix.mk 2 3 ([0,1,2,10,11,12] : List Int))
    (Matrix.mk 3 2 ([7,8,9,10,11,12] : List Int))
    ⟨by decide, by decide, by decide⟩ ⟨by decide, by decide, by decide⟩
    ⟨by decide, by decide, by decide⟩
  exact ⟨h.2.2.2.2.2.2.2.2.2.2.2.2.2.2.2.1,
    h.2.2.2.2.2.2.2.2.2.2.2.2.2.1 (fun i => i % 2 == 1),
    h.2.2.2.2.2.2.2.2.2.2.2.2.2.2.1⟩

end Mat
